import Mathlib

/-!
Verification of the adc-appkit component lifecycle manager.

This file gives a shallow embedding of the core of the repository:
`adc_appkit/components/component.py` (the `Component` contract),
`adc_appkit/component_manager.py` (`ComponentInfo`, `ComponentState`,
`ComponentStrategy`, `ComponentDescriptor`),
`adc_appkit/di_container.py` (`DIContainer.configure`,
`DIContainer.get_component`), and `adc_appkit/base_app.py` (`BaseApp._start`,
`BaseApp.start`, `BaseApp.stop`, `BaseApp.healthcheck`,
`BaseApp.check_dependency_is_ready`, `BaseApp.start_component`, and the
request-scope manager).

Python dictionaries are modelled as insertion-ordered association lists,
object identity as numeric ids into an explicit heap, exceptions as an
`Except` monad whose error carries the state at the point of failure
(Python mutates objects in place, so partial mutations survive a raise),
and the `async` start/stop/liveness hooks of concrete components as
boolean success parameters (`hookOk`, `stopOk`) and a probe function.
-/

namespace AdcAppkit

abbrev Name := String

/-- A configuration dictionary; keys mapped to opaque values. -/
abbrev ConfigDict := List (String × Nat)

/-- `ComponentStrategy` from `component_manager.py`. -/
inductive ComponentStrategy where
  | SINGLETON
  | REQUEST
deriving DecidableEq, Repr

/-- `ComponentState` from `component_manager.py`. -/
inductive ComponentState where
  | REGISTERED
  | CONFIGURED
  | STARTED
  | STOPPED
  | ERROR
deriving DecidableEq, Repr

/-- Errors raised by the embedded code.  Each constructor corresponds to one
`raise` site in the source; the carried names are the names interpolated into
the Python message string. `fuelExhausted` is a modelling artefact marking
non-termination of the `while` loop in `BaseApp._start`; it is unreachable for
the fuel used by `BaseApp.start`. -/
inductive Err where
  | notRegistered (name : Name)                       -- "Component {name} not registered"
  | unknownDependency (dep name : Name)               -- check_dependency_is_ready ValueError
  | strategyMismatch (dep name : Name)                -- check_dependency_is_ready RuntimeError
  | notConfigured (name : Name)                       -- "Component '{name}' is not configured"
  | configNotSet (name : Name)                        -- "Config for component '{name}' is not set"
  | componentConfigNone (name : Name)                 -- Component.start's own config check
  | hookFailed (name : Name)                          -- exception raised by a _start hook
  | stopHookFailed (name : Name)                      -- exception raised by a _stop hook
  | invalidTransition (fromS toS : ComponentState)    -- ComponentInfo.set_state RuntimeError
  | startComponentFailed (name : Name) (inner : Err)  -- "Failed to start component '{name}': {e}"
  | circularOrMissing                                 -- 'Circular dependency or dependency does not exist'
  | startAppFailed (inner : Err)                      -- "Failed to start app: {e}"
  | requestOutsideScope (name : Name)                 -- ComponentDescriptor.__get__ RuntimeError
  | keyError (name : Name)                            -- Python dict KeyError
  | userError (msg : String)                          -- an arbitrary exception from user code
  | attributeError (attr : String)                    -- Python AttributeError: object has no attribute `attr`
  | fuelExhausted
deriving DecidableEq, Repr

/-- The component names a raised error mentions (the names interpolated into
its Python message and the messages of the exceptions it wraps). -/
def Err.names : Err → List Name
  | .notRegistered n => [n]
  | .unknownDependency d n => [d, n]
  | .strategyMismatch d n => [d, n]
  | .notConfigured n => [n]
  | .configNotSet n => [n]
  | .componentConfigNone n => [n]
  | .hookFailed n => [n]
  | .stopHookFailed n => [n]
  | .invalidTransition _ _ => []
  | .startComponentFailed n e => n :: e.names
  | .circularOrMissing => []
  | .startAppFailed e => e.names
  | .requestOutsideScope n => [n]
  | .keyError n => [n]
  | .userError _ => []
  | .attributeError _ => []
  | .fuelExhausted => []

/-- Observable events of a run: an invocation of a component's `_start` hook,
and a call of an instance's `stop()` method. -/
inductive Event where
  | startH (n : Name)
  | stopH (n : Name)
deriving DecidableEq, Repr

/-- Truthiness of an optional Python dict: `None` and `{}` are falsy.  Used by
`if info.config:` in `DIContainer.get_component`. -/
def configTruthy : Option ConfigDict → Bool
  | some c => !c.isEmpty
  | none => false

/-- A live `Component` object (`adc_appkit/components/component.py`): its
`_config`, `_obj` and `_started` fields. -/
structure CompInst where
  config : Option ConfigDict := none
  obj : Option Nat := none
  started : Bool := false
deriving DecidableEq, Repr

/-- `Component.start` (`components/component.py`, lines 40-50).  `hookOk` is
whether the `_start` hook succeeds, `objVal` the wrapped object it would
return, `name` identifies the component in errors.  The returned `Bool` is
whether the `_start` hook was actually invoked. -/
def CompInst.start (hookOk : Bool) (objVal : Nat) (name : Name) (c : CompInst) :
    Except Err (CompInst × Bool) :=
  if c.started then .ok (c, false)
  else
    match c.config with
    | none => .error (.componentConfigNone name)
    | some _ =>
      if hookOk then .ok ({ c with obj := some objVal, started := true }, true)
      else .error (.hookFailed name)

/-- `Component.stop` (`components/component.py`): a no-op unless started;
`stopOk` is whether the `_stop` hook succeeds. -/
def CompInst.stop (stopOk : Bool) (name : Name) (c : CompInst) : Except Err CompInst :=
  if !c.started then .ok c
  else if stopOk then .ok { c with started := false }
  else .error (.stopHookFailed name)

/-- `ComponentInfo` from `component_manager.py`.  `dependencies` is the
normalised parameter-name → component-name mapping (iterated with `.items()`
by `check_dependency_is_ready`); `instRef` is the `instance` field (a Lean
keyword), a reference into the heap. -/
structure ComponentInfo where
  strategy : ComponentStrategy
  dependencies : List (String × Name) := []
  config : Option ConfigDict := none
  instRef : Option Nat := none
  state : ComponentState := .REGISTERED
deriving DecidableEq, Repr

/-- The transition table of `ComponentInfo.set_state`. -/
def validTransitions : ComponentState → List ComponentState
  | .REGISTERED => [.CONFIGURED, .ERROR]
  | .CONFIGURED => [.STARTED, .ERROR]
  | .STARTED => [.STOPPED, .ERROR]
  | .STOPPED => [.CONFIGURED, .ERROR]
  | .ERROR => [.REGISTERED, .CONFIGURED, .STARTED, .STOPPED]

/-- `ComponentInfo.set_state` (`component_manager.py`, lines 60-81). -/
def ComponentInfo.setState (i : ComponentInfo) (new : ComponentState) :
    Except Err ComponentInfo :=
  if i.state = new then .ok i
  else if new ∈ validTransitions i.state then .ok { i with state := new }
  else .error (.invalidTransition i.state new)

/-- Lookup in an insertion-ordered association list (a Python dict). -/
def lookupA {β : Type} (k : Name) : List (Name × β) → Option β
  | [] => none
  | (k', v) :: rest => if k = k' then some v else lookupA k rest

/-- Keyed update in an insertion-ordered association list: Python's
`d[k] = v` (updates in place, or appends a new key at the end). -/
def updateA {β : Type} (k : Name) (v : β) : List (Name × β) → List (Name × β)
  | [] => [(k, v)]
  | (k', v') :: rest => if k = k' then (k, v) :: rest else (k', v') :: updateA k v rest

/-- Lookup in a `Nat`-keyed association list (the heap and the scope table). -/
def lookupN {β : Type} (k : Nat) : List (Nat × β) → Option β
  | [] => none
  | (k', v) :: rest => if k = k' then some v else lookupN k rest

/-- Keyed update in a `Nat`-keyed association list. -/
def updateN {β : Type} (k : Nat) (v : β) : List (Nat × β) → List (Nat × β)
  | [] => [(k, v)]
  | (k', v') :: rest => if k = k' then (k, v) :: rest else (k', v') :: updateN k v rest

/-- The combined state of a `BaseApp` and its `DIContainer`:
`components` is `DIContainer._components`, `instances` is
`DIContainer._instances` (name → heap id), `heap` gives each live `Component`
object an identity, `started` is `BaseApp._started_singletons`, `scopes`
holds each request-scope cache (scope id → name → heap id), `current` is the
`_current_scope` context variable, and `events` is the observable trace. -/
structure AppState where
  components : List (Name × ComponentInfo)
  instances : List (Name × Nat) := []
  heap : List (Nat × CompInst) := []
  nextId : Nat := 0
  started : List Name := []
  scopes : List (Nat × List (Name × Nat)) := []
  nextScope : Nat := 0
  current : Option Nat := none
  events : List Event := []
deriving DecidableEq, Repr

/-- A `BaseApp` as it stands after `__init__` has registered and configured
every descriptor. -/
def freshApp (comps : List (Name × ComponentInfo)) : AppState :=
  { components := comps }

/-- Replace the info of component `n` (Python mutates the shared
`ComponentInfo` object in place). -/
def updateInfo (st : AppState) (n : Name) (f : ComponentInfo → ComponentInfo) : AppState :=
  { st with
    components :=
      match lookupA n st.components with
      | some info => updateA n (f info) st.components
      | none => st.components }

/-- Construction of a fresh instance: `info.component_type()` followed by
`if info.config: inst.set_config(info.config)` (`di_container.py`). -/
def mkInst (cfg : Option ConfigDict) : CompInst :=
  { config := if configTruthy cfg then cfg else none }

/-- `DIContainer.configure` (`di_container.py`, lines 54-60).  Note: the state
is assigned directly (`info.state = ...CONFIGURED`), bypassing
`ComponentInfo.set_state`. -/
def DIConfigure (st : AppState) (name : Name) (config : ConfigDict) :
    Except Err AppState :=
  match lookupA name st.components with
  | none => .error (.notRegistered name)
  | some info =>
    .ok { st with
          components :=
            updateA name { info with config := some config, state := .CONFIGURED }
              st.components }

/-- `DIContainer.get_component` (`di_container.py`, lines 86-113).  `scope` is
the optional scope cache (identified by its id in `st.scopes`); returns the
heap id of the instance. -/
def getComponent (st : AppState) (name : Name) (scope : Option Nat) :
    Except Err (Nat × AppState) :=
  match lookupA name st.components with
  | none => .error (.notRegistered name)
  | some info =>
    if info.strategy = .SINGLETON then
      match lookupA name st.instances with
      | some id => .ok (id, st)
      | none =>
        let id := st.nextId
        .ok (id, { st with
                   heap := updateN id (mkInst info.config) st.heap,
                   instances := updateA name id st.instances,
                   nextId := id + 1 })
    else
      match scope with
      | some sid =>
        let cache := (lookupN sid st.scopes).getD []
        match lookupA name cache with
        | some id => .ok (id, st)
        | none =>
          let id := st.nextId
          .ok (id, { st with
                     heap := updateN id (mkInst info.config) st.heap,
                     scopes := updateN sid (updateA name id cache) st.scopes,
                     nextId := id + 1 })
      | none =>
        let id := st.nextId
        .ok (id, { st with
                   heap := updateN id (mkInst info.config) st.heap,
                   nextId := id + 1 })

/-- `BaseApp.check_dependency_is_ready` (`base_app.py`, lines 55-68) as
written: the loop body's first test, `dep_name not in
self._container.components` (line 57), reads an attribute `DIContainer`
never defines — the container has only `_components` (`di_container.py`,
line 18) — so the first declared dependency raises
`AttributeError: 'DIContainer' object has no attribute 'components'`; a
component with no dependencies returns `True` without ever touching the
attribute. -/
def checkDependencyIsReady (_st : AppState) (_name : Name) (info : ComponentInfo) :
    Except Err Bool :=
  match info.dependencies with
  | [] => .ok true
  | _ :: _ => .error (.attributeError "components")

/-- `info.set_state(ComponentState.ERROR)` in the `except` branch of
`start_component`; a transition to `ERROR` is valid from every state, so
this never raises. -/
def setStateError (st : AppState) (name : Name) : AppState :=
  updateInfo st name fun i =>
    if i.state = .ERROR then i else { i with state := .ERROR }

/-- The `try` block of `BaseApp.start_component` (`base_app.py`, lines
74-86) as written: after `get_component` returns the instance and
`inst.config` passes the `None` check, line 80 calls `inst.set_app(self)`
— a method defined nowhere in the repository (`Component.__init__` merely
initialises the `_app` field) — so every call raises an `AttributeError`
for `set_app` before `inst.start()` can be awaited; no start hook is ever
invoked.  An error carries the state at the point of failure (the
instance constructed by `get_component` survives in `_instances`). -/
def startComponentTry (st : AppState) (name : Name) :
    Except (Err × AppState) AppState :=
  match getComponent st name none with
  | .error e => .error (e, st)
  | .ok (id, st1) =>
    match lookupN id st1.heap with
    | none => .error (.keyError name, st1)
    | some inst =>
      if inst.config = none then .error (.configNotSet name, st1)
      else .error (.attributeError "set_app", st1)

/-- `BaseApp.start_component` (`base_app.py`, lines 70-89) as written:
refuse a non-`CONFIGURED` component; the `AttributeError` raised by the
undefined `set_app` (like any other failure of the `try` block) is caught
by the `except`, the component is marked `ERROR`, and the error re-raised
wrapped as "Failed to start component '...': ...". -/
def startComponent (st : AppState) (name : Name) :
    Except (Err × AppState) AppState :=
  match lookupA name st.components with
  | none => .error (.keyError name, st)
  | some info =>
    if info.state ≠ .CONFIGURED then .error (.notConfigured name, st)
    else
      match startComponentTry st name with
      | .ok st' => .ok st'
      | .error (e, stF) => .error (.startComponentFailed name e, setStateError stF name)

/-- `BaseApp._start` (`base_app.py`, lines 91-110) as written: its first
statement, the list comprehension over `self._container.components.values()`
(line 93), reads the nonexistent `DIContainer.components` attribute — the
same file's `__init__`, `stop` and `healthcheck` read `_components`, lines
36, 123 and 137 — and raises `AttributeError` at once.  The `while` loop
below it is unreachable: no component is examined and no start hook can
ever be consulted (the hook parameter is kept only for signature parity
with `start`). -/
def startAux (_hookOk : Name → Bool) (st : AppState) :
    Except (Err × AppState) AppState :=
  .error (.attributeError "components", st)

/-! ### The intended orchestrator

`BaseApp._start`, `check_dependency_is_ready` and `start_component` cannot
run as written: `base_app.py` lines 57, 60, 93 and 98 read
`self._container.components`, an attribute `DIContainer` never defines —
it has only `_components` (`di_container.py`, line 18), which the same
file's `__init__`, `stop` and `healthcheck` do use (lines 36, 123, 137) —
and line 80 calls `inst.set_app(self)`, a method defined nowhere in the
repository, while `Component.__init__` initialises `_app` with a comment
saying it will be set at application start.  The definitions above with
plain source names embed the code as written, `AttributeError`s included.
The `*Intended` definitions below embed the very same code with exactly
those two slips repaired — every `.components` read resolved to
`_components`, and `set_app` taken as the benign `_app` assignment it
evidently stands for — and serve to establish which properties the
intended orchestration algorithm would have; theorems about them carry
`intended` in their name. -/

/-- One dependency of `check_dependency_is_ready`'s loop body
(`base_app.py`, lines 56-66), folded over `info.dependencies.items()`,
under the intended `_components` reading. -/
def checkDepsGoIntended (st : AppState) (name : Name) (strategy : ComponentStrategy) :
    List (String × Name) → Except Err Bool
  | [] => .ok true
  | (_, depName) :: rest =>
    match lookupA depName st.components with
    | none => .error (.unknownDependency depName name)
    | some depInfo =>
      if depInfo.strategy ≠ strategy then .error (.strategyMismatch depName name)
      else if depName ∈ st.started then checkDepsGoIntended st name strategy rest
      else .ok false

/-- `BaseApp.check_dependency_is_ready` (`base_app.py`, lines 55-68) under
the intended `_components` reading. -/
def checkDependencyIsReadyIntended (st : AppState) (name : Name) (info : ComponentInfo) :
    Except Err Bool :=
  checkDepsGoIntended st name info.strategy info.dependencies

/-- The `try` block of `BaseApp.start_component` (`base_app.py`, lines 74-86)
as intended: `inst.set_app(self)` (line 80) is taken as the `_app`
assignment it evidently stands for, a no-op in this model, so control
reaches `await inst.start()` and the hook is actually consulted.  An error
carries the state at the point of failure (partial mutations survive). -/
def startComponentTryIntended (hookOk : Name → Bool) (st : AppState) (name : Name)
    (info : ComponentInfo) : Except (Err × AppState) AppState :=
  match getComponent st name none with
  | .error e => .error (e, st)
  | .ok (id, st1) =>
    match lookupN id st1.heap with
    | none => .error (.keyError name, st1)
    | some inst =>
      if inst.config = none then .error (.configNotSet name, st1)
      else
        match CompInst.start (hookOk name) id name inst with
        | .error e => .error (e, st1)
        | .ok (inst', invoked) =>
          let st2 := { st1 with
                       heap := updateN id inst' st1.heap,
                       events := if invoked then st1.events ++ [.startH name]
                                 else st1.events }
          match info.setState .STARTED with
          | .error e => .error (e, st2)
          | .ok info' =>
            .ok { st2 with
                  components := updateA name { info' with instRef := some id } st2.components,
                  started := st2.started ++ [name] }

/-- `BaseApp.start_component` (`base_app.py`, lines 70-89), intended
reading: refuse a non-`CONFIGURED` component, then run the `try` block; on
failure mark the component `ERROR` and wrap the exception with the
component's name. -/
def startComponentIntended (hookOk : Name → Bool) (st : AppState) (name : Name) :
    Except (Err × AppState) AppState :=
  match lookupA name st.components with
  | none => .error (.keyError name, st)
  | some info =>
    if info.state ≠ .CONFIGURED then .error (.notConfigured name, st)
    else
      match startComponentTryIntended hookOk st name info with
      | .ok st' => .ok st'
      | .error (e, stF) => .error (.startComponentFailed name e, setStateError stF name)

/-- One full pass of the `for name, info in ...components.items()` loop inside
`BaseApp._start` (`base_app.py`, lines 98-107): `names` is the iteration
order of the dict, `changes` the accumulator. -/
def startPassGoIntended (hookOk : Name → Bool) (names : List Name) (st : AppState)
    (changes : Bool) : Except (Err × AppState) (AppState × Bool) :=
  match names with
  | [] => .ok (st, changes)
  | n :: rest =>
    match lookupA n st.components with
    | none => startPassGoIntended hookOk rest st changes
    | some info =>
      if info.strategy ≠ .SINGLETON then startPassGoIntended hookOk rest st changes
      else if info.state = .STARTED then startPassGoIntended hookOk rest st changes
      else
        match checkDependencyIsReadyIntended st n info with
        | .error e => .error (e, st)
        | .ok false => startPassGoIntended hookOk rest st changes
        | .ok true =>
          match startComponentIntended hookOk st n with
          | .error es => .error es
          | .ok st' => startPassGoIntended hookOk rest st' true

/-- One intended pass over all components in declaration order. -/
def startPassIntended (hookOk : Name → Bool) (st : AppState) :
    Except (Err × AppState) (AppState × Bool) :=
  startPassGoIntended hookOk (st.components.map Prod.fst) st false

/-- `len(singleton_components)` in `BaseApp._start` (line 93) under the
intended `_components` reading. -/
def countSingletonsIntended (st : AppState) : Nat :=
  (st.components.filter fun p => p.2.strategy = .SINGLETON).length

/-- The `while` loop of `BaseApp._start` (`base_app.py`, lines 95-110),
intended reading:
`total` is the `len(singleton_components)` computed before the loop; `fuel`
bounds the number of iterations (the loop strictly grows
`_started_singletons` every iteration it continues, so
`total + 1` iterations always suffice). -/
def startLoopIntended (hookOk : Name → Bool) (total : Nat) : Nat → AppState →
    Except (Err × AppState) AppState
  | 0, st => .error (.fuelExhausted, st)
  | fuel + 1, st =>
    if st.started.length < total then
      match startPassIntended hookOk st with
      | .error es => .error es
      | .ok (st', changes) =>
        if changes then startLoopIntended hookOk total fuel st'
        else .error (.circularOrMissing, st')
    else .ok st

/-- `BaseApp._start` (`base_app.py`, lines 91-110) as intended: the
algorithm the code spells out, runnable once the `.components` reads are
resolved to `_components` and `set_app` is benign. -/
def startAuxIntended (hookOk : Name → Bool) (st : AppState) : Except (Err × AppState) AppState :=
  startLoopIntended hookOk (countSingletonsIntended st) (countSingletonsIntended st + 1) st

/-- The body of the `for name in reversed(self._started_singletons)` loop of
`BaseApp.stop` (`base_app.py`, lines 122-130). -/
def stopGo (stopOk : Name → Bool) : List Name → AppState →
    Except (Err × AppState) AppState
  | [], st => .ok st
  | n :: rest, st =>
    match lookupA n st.components with
    | none => .error (.keyError n, st)
    | some info =>
      match info.instRef with
      | none =>
        -- `if inst and hasattr(inst, "stop"):` is false; still transition and clear
        match info.setState .STOPPED with
        | .error e => .error (e, st)
        | .ok info' =>
          stopGo stopOk rest
            { st with components := updateA n { info' with instRef := none } st.components }
      | some id =>
        let st1 := { st with events := st.events ++ [.stopH n] }
        match lookupN id st1.heap with
        | none => .error (.keyError n, st1)
        | some inst =>
          match CompInst.stop (stopOk n) n inst with
          | .error e => .error (e, st1)
          | .ok inst' =>
            let st2 := { st1 with heap := updateN id inst' st1.heap }
            match info.setState .STOPPED with
            | .error e => .error (e, st2)
            | .ok info' =>
              stopGo stopOk rest
                { st2 with components := updateA n { info' with instRef := none } st2.components }

/-- `BaseApp.stop` (`base_app.py`, lines 120-131): stop previously started
singletons in reverse start order, then clear the started list.  An exception
in the loop propagates before the list is cleared. -/
def appStop (stopOk : Name → Bool) (st : AppState) : Except (Err × AppState) AppState :=
  match stopGo stopOk st.started.reverse st with
  | .ok st' => .ok { st' with started := [] }
  | .error es => .error es

/-- `BaseApp.start` (`base_app.py`, lines 112-118): run `_start`; on any
exception run `stop()` and re-raise wrapped as "Failed to start app: ...".
If `stop()` itself raises, that exception propagates instead of the wrapped
original.  With `_start` as written the caught exception is always the
`AttributeError` from line 93, and the rollback `stop()` — over a started
list still empty — is a no-op. -/
def appStart (hookOk stopOk : Name → Bool) (st : AppState) :
    Except (Err × AppState) AppState :=
  match startAux hookOk st with
  | .ok st' => .ok st'
  | .error (e, st') =>
    match appStop stopOk st' with
    | .ok st'' => .error (.startAppFailed e, st'')
    | .error (e2, st'') => .error (e2, st'')

/-- `BaseApp.start` over the intended `_start` (`startAuxIntended`). -/
def appStartIntended (hookOk stopOk : Name → Bool) (st : AppState) :
    Except (Err × AppState) AppState :=
  match startAuxIntended hookOk st with
  | .ok st' => .ok st'
  | .error (e, st') =>
    match appStop stopOk st' with
    | .ok st'' => .error (.startAppFailed e, st'')
    | .error (e2, st'') => .error (e2, st'')

/-- The loop body of `BaseApp.healthcheck` (`base_app.py`, lines 135-143).
`probe` gives the result of `inst.is_alive()` (`.error` models a raising
probe, which propagates out of `healthcheck`). -/
def healthGo (probe : Name → Except Err Bool) (st : AppState) :
    List Name → List (Name × Bool) → Except Err (List (Name × Bool))
  | [], acc => .ok acc
  | n :: rest, acc =>
    match lookupA n st.components with
    | none => .error (.keyError n)
    | some info =>
      match info.instRef with
      | none => healthGo probe st rest (updateA n true acc)
      | some _ =>
        match probe n with
        | .error e => .error e
        | .ok b => healthGo probe st rest (updateA n b acc)

/-- `BaseApp.healthcheck` (`base_app.py`, lines 133-144). -/
def healthcheck (probe : Name → Except Err Bool) (st : AppState) :
    Except Err (List (Name × Bool)) :=
  healthGo probe st st.started []

/-- `ComponentDescriptor.__get__` (`component_manager.py`, lines 109-124):
attribute-style access on the app; a `REQUEST` component outside any active
scope raises, otherwise the container lookup runs with the current scope. -/
def descriptorGet (st : AppState) (name : Name) : Except Err (Nat × AppState) :=
  let isRequest :=
    match lookupA name st.components with
    | some info => info.strategy = .REQUEST
    | none => false
  if isRequest = true ∧ st.current = none then .error (.requestOutsideScope name)
  else getComponent st name st.current

/-- The `_RequestScopeManager` after `__aenter__`: the id of its cache and
the context-variable token (the previous value of `_current_scope`). -/
structure ScopeMgr where
  sid : Nat
  token : Option Nat
deriving DecidableEq, Repr

/-- `_RequestScopeManager.__init__` + `__aenter__` (`base_app.py`, lines
149-158): create an empty cache and set it as the current scope, saving the
previous value as the token. -/
def requestScopeEnter (st : AppState) : ScopeMgr × AppState :=
  (⟨st.nextScope, st.current⟩,
   { st with
     scopes := st.scopes ++ [(st.nextScope, [])],
     nextScope := st.nextScope + 1,
     current := some st.nextScope })

/-- The `for comp in self._cache.values()` loop of
`_RequestScopeManager.__aexit__`: call `stop()` on every cached instance. -/
def scopeStopGo (stopOk : Name → Bool) : List (Name × Nat) → AppState →
    Except (Err × AppState) AppState
  | [], st => .ok st
  | (n, id) :: rest, st =>
    let st1 := { st with events := st.events ++ [.stopH n] }
    match lookupN id st1.heap with
    | none => .error (.keyError n, st1)
    | some inst =>
      match CompInst.stop (stopOk n) n inst with
      | .error e => .error (e, st1)
      | .ok inst' => scopeStopGo stopOk rest { st1 with heap := updateN id inst' st1.heap }

/-- `_RequestScopeManager.__aexit__` (`base_app.py`, lines 160-171): stop every
cached instance, clear the cache, restore the previous scope. -/
def requestScopeExit (stopOk : Name → Bool) (mgr : ScopeMgr) (st : AppState) :
    Except (Err × AppState) AppState :=
  let cache := (lookupN mgr.sid st.scopes).getD []
  match scopeStopGo stopOk cache st with
  | .error es => .error es
  | .ok st1 =>
    .ok { st1 with scopes := updateN mgr.sid [] st1.scopes, current := mgr.token }

/-- A scope body consisting of component accesses `req.<n>`
(`_RequestScopeManager.__getattr__`, which calls `get_component` with the
manager's own cache). -/
def scopeGetsGo (gets : List Name) (mgr : ScopeMgr) (st : AppState) :
    Except (Err × AppState) AppState :=
  match gets with
  | [] => .ok st
  | n :: rest =>
    match getComponent st n (some mgr.sid) with
    | .error e => .error (e, st)
    | .ok (_, st') => scopeGetsGo rest mgr st'

/-- `async with app.request_scope() as req: ...` with a body that performs
the component accesses `gets` and then raises `bodyErr` (if given):
`__aexit__` runs on every exit path; an exception inside `__aexit__`
supersedes the body's exception. -/
def withRequestScope (stopOk : Name → Bool) (gets : List Name)
    (bodyErr : Option Err) (st : AppState) : Except (Err × AppState) AppState :=
  let (mgr, st1) := requestScopeEnter st
  match scopeGetsGo gets mgr st1 with
  | .error (e, st2) =>
    match requestScopeExit stopOk mgr st2 with
    | .ok st3 => .error (e, st3)
    | .error es => .error es
  | .ok st2 =>
    match bodyErr with
    | some e =>
      match requestScopeExit stopOk mgr st2 with
      | .ok st3 => .error (e, st3)
      | .error es => .error es
    | none => requestScopeExit stopOk mgr st2

/-! ### Derived notions used by the statements -/

/-- The declared dependency names of component `n`. -/
def depsOf (comps : List (Name × ComponentInfo)) (n : Name) : List Name :=
  match lookupA n comps with
  | some info => info.dependencies.map Prod.snd
  | none => []

/-- The singleton dependency edge: `n` is a registered singleton that
declares a dependency on `d`. -/
def depEdge (comps : List (Name × ComponentInfo)) (n d : Name) : Prop :=
  ∃ info, lookupA n comps = some info ∧ info.strategy = .SINGLETON ∧
    d ∈ info.dependencies.map Prod.snd

/-- The singleton dependency graph is acyclic: no nonempty dependency path
from a component back to itself. -/
def Acyclic (comps : List (Name × ComponentInfo)) : Prop :=
  ∀ x, ¬ Relation.TransGen (depEdge comps) x x

/-- `n` is registered with the `SINGLETON` strategy. -/
def isSingletonName (comps : List (Name × ComponentInfo)) (n : Name) : Prop :=
  ∃ info, lookupA n comps = some info ∧ info.strategy = .SINGLETON

/-- All singleton dependency edges, as a computable list. -/
def edgeList (comps : List (Name × ComponentInfo)) : List (Name × Name) :=
  comps.flatMap fun p =>
    if p.2.strategy = .SINGLETON then p.2.dependencies.map fun q => (p.1, q.2)
    else []

/-- A not-yet-started singleton all of whose declared dependencies are
already started — exactly what one iteration of `_start`'s inner loop
requires to call `start_component`. -/
def eligible (st : AppState) (n : Name) : Prop :=
  ∃ info, lookupA n st.components = some info ∧ info.strategy = .SINGLETON ∧
    n ∉ st.started ∧ ∀ d ∈ info.dependencies.map Prod.snd, d ∈ st.started

/-- Well-formedness of an application definition after `BaseApp.__init__`:
distinct names, every singleton configured (with a config that passes
Python's truthiness test), and every dependency of a singleton registered
with the singleton strategy. -/
def WfComps (comps : List (Name × ComponentInfo)) : Prop :=
  (comps.map Prod.fst).Nodup ∧
  (∀ p ∈ comps, p.2.strategy = ComponentStrategy.SINGLETON →
    p.2.state = ComponentState.CONFIGURED ∧ configTruthy p.2.config = true) ∧
  (∀ p ∈ comps, p.2.strategy = ComponentStrategy.SINGLETON →
    ∀ d ∈ p.2.dependencies.map Prod.snd,
      ∃ q ∈ comps, q.1 = d ∧ q.2.strategy = ComponentStrategy.SINGLETON)

/-- What `BaseApp.stop` needs of the started list: every started name is
registered, in state `STARTED`, holding a live instance reference. -/
structure StopReady (st : AppState) : Prop where
  started_nodup : st.started.Nodup
  started_props : ∀ n ∈ st.started, ∃ info, lookupA n st.components = some info ∧
    info.state = .STARTED ∧ ∃ id, info.instRef = some id ∧ (lookupN id st.heap).isSome

/-- The invariant of the startup sequence, relative to the initial
components `comps₀`. -/
structure Inv (comps₀ : List (Name × ComponentInfo)) (st : AppState) : Prop where
  skel : st.components.map (fun p => (p.1, p.2.strategy, p.2.dependencies)) =
         comps₀.map (fun p => (p.1, p.2.strategy, p.2.dependencies))
  started_props : ∀ n ∈ st.started, ∃ info, lookupA n st.components = some info ∧
    info.strategy = .SINGLETON ∧ info.state = .STARTED ∧
    ∃ id, info.instRef = some id ∧ (lookupN id st.heap).isSome
  started_nodup : st.started.Nodup
  started_order : ∀ i n, st.started.get? i = some n →
    ∀ d ∈ depsOf st.components n, ∃ j, j < i ∧ st.started.get? j = some d
  unstarted_props : ∀ n info, lookupA n st.components = some info →
    info.strategy = .SINGLETON → n ∉ st.started →
    info.state = .CONFIGURED ∧ configTruthy info.config = true ∧
    lookupA n st.instances = none
  events_eq : st.events = st.started.map Event.startH
  heap_lt : ∀ p ∈ st.heap, p.1 < st.nextId

/-- The names a scope body's accesses create in the scope cache: first
occurrences, in access order. -/
def scopeNames (gets : List Name) : List Name :=
  gets.foldl (fun acc n => if n ∈ acc then acc else acc ++ [n]) []

/-- The number of singleton components of an application definition. -/
def singletonCount (comps : List (Name × ComponentInfo)) : Nat :=
  (comps.filter fun p => p.2.strategy = ComponentStrategy.SINGLETON).length

/-! ### Concrete applications used as witnesses and counterexamples -/

/-- A sample nonempty configuration. -/
def cfg1 : ConfigDict := [("k", 1)]

/-- Two singletons: `A` with no dependencies, `B` depending on `A`. -/
def exAB : List (Name × ComponentInfo) :=
  [("A", { strategy := .SINGLETON, config := some cfg1, state := .CONFIGURED }),
   ("B", { strategy := .SINGLETON, dependencies := [("a", "A")],
           config := some cfg1, state := .CONFIGURED })]

/-- A dependency-free singleton `A` plus the cycle `compC ↔ compD`. -/
def exCycle : List (Name × ComponentInfo) :=
  [("A", { strategy := .SINGLETON, config := some cfg1, state := .CONFIGURED }),
   ("compC", { strategy := .SINGLETON, dependencies := [("d", "compD")],
               config := some cfg1, state := .CONFIGURED }),
   ("compD", { strategy := .SINGLETON, dependencies := [("c", "compC")],
               config := some cfg1, state := .CONFIGURED })]

/-- Two request-strategy components. -/
def exReq : List (Name × ComponentInfo) :=
  [("r1", { strategy := .REQUEST, config := some cfg1, state := .CONFIGURED }),
   ("r2", { strategy := .REQUEST, config := some cfg1, state := .CONFIGURED })]

/-- A single registered component already in state `STARTED`. -/
def exStarted : List (Name × ComponentInfo) :=
  [("x", { strategy := .SINGLETON, config := some cfg1, state := .STARTED })]

/-- An application with singletons `A` and `B` both started (as `start()`
leaves them). -/
def exHealth : AppState :=
  { components :=
      [("A", { strategy := .SINGLETON, config := some cfg1, instRef := some 0,
               state := .STARTED }),
       ("B", { strategy := .SINGLETON, config := some cfg1, instRef := some 1,
               state := .STARTED })],
    instances := [("A", 0), ("B", 1)],
    heap := [(0, { config := some cfg1, obj := some 0, started := true }),
             (1, { config := some cfg1, obj := some 1, started := true })],
    nextId := 2,
    started := ["A", "B"] }

/-- Every hook succeeds. -/
def allOk : Name → Bool := fun _ => true

/-- Every start hook succeeds except component `B`'s. -/
def hookFailB : Name → Bool := fun n => n ≠ "B"

/-- Every stop hook succeeds except component `A`'s. -/
def stopFailA : Name → Bool := fun n => n ≠ "A"

/-- A liveness probe that raises on `A` and answers `true` elsewhere. -/
def probeThrowA : Name → Except Err Bool := fun n =>
  if n = "A" then .error (.userError "probe exploded") else .ok true

/-- A liveness probe that returns `false` on `A` and `true` elsewhere. -/
def probeFalseA : Name → Except Err Bool := fun n =>
  if n = "A" then .ok false else .ok true

/-! ### Association-list lemmas -/

theorem lookupA_mem {β : Type} {k : Name} {v : β} :
    ∀ {l : List (Name × β)}, lookupA k l = some v → (k, v) ∈ l := by
  intro l
  induction l with
  | nil => intro h; simp [lookupA] at h
  | cons p rest ih =>
    intro h
    by_cases hk : k = p.1
    · subst hk
      simp [lookupA] at h
      subst h
      exact List.mem_cons_self _ _
    · rw [show p = (p.1, p.2) from rfl] at h ⊢
      simp only [lookupA, if_neg hk] at h
      exact List.mem_cons_of_mem _ (ih h)

theorem lookupA_updateA_self {β : Type} (k : Name) (v : β) :
    ∀ l : List (Name × β), lookupA k (updateA k v l) = some v := by
  intro l
  induction l with
  | nil => simp [lookupA, updateA]
  | cons p rest ih =>
    by_cases hk : k = p.1
    · rw [show p = (p.1, p.2) from rfl]
      simp [lookupA, updateA, hk]
    · rw [show p = (p.1, p.2) from rfl]
      simp only [updateA, if_neg hk, lookupA, if_neg hk]
      exact ih

theorem lookupA_updateA_ne {β : Type} {k k' : Name} (h : k ≠ k') (v : β) :
    ∀ l : List (Name × β), lookupA k (updateA k' v l) = lookupA k l := by
  intro l
  induction l with
  | nil => simp [lookupA, updateA, h]
  | cons p rest ih =>
    by_cases hk : k' = p.1
    · subst hk
      rw [show p = (p.1, p.2) from rfl]
      simp [lookupA, updateA, h]
    · rw [show p = (p.1, p.2) from rfl]
      simp only [updateA, if_neg hk, lookupA]
      by_cases hkk : k = p.1
      · simp [hkk]
      · simp [hkk, ih]

theorem lookupN_mem {β : Type} {k : Nat} {v : β} :
    ∀ {l : List (Nat × β)}, lookupN k l = some v → (k, v) ∈ l := by
  intro l
  induction l with
  | nil => intro h; simp [lookupN] at h
  | cons p rest ih =>
    intro h
    by_cases hk : k = p.1
    · subst hk
      simp [lookupN] at h
      subst h
      exact List.mem_cons_self _ _
    · rw [show p = (p.1, p.2) from rfl] at h ⊢
      simp only [lookupN, if_neg hk] at h
      exact List.mem_cons_of_mem _ (ih h)

theorem lookupN_updateN_self {β : Type} (k : Nat) (v : β) :
    ∀ l : List (Nat × β), lookupN k (updateN k v l) = some v := by
  intro l
  induction l with
  | nil => simp [lookupN, updateN]
  | cons p rest ih =>
    by_cases hk : k = p.1
    · rw [show p = (p.1, p.2) from rfl]
      simp [lookupN, updateN, hk]
    · rw [show p = (p.1, p.2) from rfl]
      simp only [updateN, if_neg hk, lookupN, if_neg hk]
      exact ih

theorem lookupN_updateN_ne {β : Type} {k k' : Nat} (h : k ≠ k') (v : β) :
    ∀ l : List (Nat × β), lookupN k (updateN k' v l) = lookupN k l := by
  intro l
  induction l with
  | nil => simp [lookupN, updateN, h]
  | cons p rest ih =>
    by_cases hk : k' = p.1
    · subst hk
      rw [show p = (p.1, p.2) from rfl]
      simp [lookupN, updateN, h]
    · rw [show p = (p.1, p.2) from rfl]
      simp only [updateN, if_neg hk, lookupN]
      by_cases hkk : k = p.1
      · simp [hkk]
      · simp [hkk, ih]

theorem mem_updateN {β : Type} {p : Nat × β} {k : Nat} {v : β} :
    ∀ {l : List (Nat × β)}, p ∈ updateN k v l → p ∈ l ∨ p = (k, v) := by
  intro l
  induction l with
  | nil => intro h; simp [updateN] at h; exact Or.inr h
  | cons q rest ih =>
    intro h
    rw [show q = (q.1, q.2) from rfl] at h
    by_cases hk : k = q.1
    · simp only [updateN, if_pos hk] at h
      rcases List.mem_cons.1 h with h | h
      · exact Or.inr h
      · exact Or.inl (List.mem_cons_of_mem _ h)
    · simp only [updateN, if_neg hk] at h
      rcases List.mem_cons.1 h with h | h
      · exact Or.inl (by rw [h]; exact List.mem_cons_self _ _)
      · rcases ih h with h | h
        · exact Or.inl (List.mem_cons_of_mem _ h)
        · exact Or.inr h

theorem map_updateA {β γ : Type} (f : Name × β → γ) {k : Name} {v v' : β} :
    ∀ {l : List (Name × β)}, lookupA k l = some v → f (k, v') = f (k, v) →
      (updateA k v' l).map f = l.map f := by
  intro l
  induction l with
  | nil => intro h; simp [lookupA] at h
  | cons p rest ih =>
    intro h hf
    rw [show p = (p.1, p.2) from rfl] at h ⊢
    by_cases hk : k = p.1
    · subst hk
      have h2 : p.2 = v := by simpa [lookupA] using h
      subst h2
      simp [updateA, hf]
    · simp only [lookupA, if_neg hk] at h
      simp only [updateA, if_neg hk, List.map_cons, ih h hf]

theorem updateA_keys {β : Type} (k : Name) (v' : β) :
    ∀ {l : List (Name × β)}, (lookupA k l).isSome →
      (updateA k v' l).map Prod.fst = l.map Prod.fst := by
  intro l
  induction l with
  | nil => intro h; simp [lookupA] at h
  | cons p rest ih =>
    intro h
    rw [show p = (p.1, p.2) from rfl]
    by_cases hk : k = p.1
    · simp [updateA, hk]
    · rw [show p = (p.1, p.2) from rfl] at h
      simp only [lookupA, if_neg hk] at h
      simp only [updateA, if_neg hk, List.map_cons]
      rw [ih h]

theorem lookupA_eq_none {β : Type} {k : Name} :
    ∀ {l : List (Name × β)}, lookupA k l = none ↔ k ∉ l.map Prod.fst := by
  intro l
  induction l with
  | nil => simp [lookupA]
  | cons p rest ih =>
    rw [show p = (p.1, p.2) from rfl]
    by_cases hk : k = p.1
    · simp [lookupA, hk]
    · simp [lookupA, hk, ih]

theorem updateA_fresh {β : Type} {k : Name} (v : β) :
    ∀ {l : List (Name × β)}, lookupA k l = none → updateA k v l = l ++ [(k, v)] := by
  intro l
  induction l with
  | nil => intro _; simp [updateA]
  | cons p rest ih =>
    intro h
    rw [show p = (p.1, p.2) from rfl] at h ⊢
    by_cases hk : k = p.1
    · simp [lookupA, hk] at h
    · simp only [lookupA, if_neg hk] at h
      simp only [updateA, if_neg hk, List.cons_append, List.cons.injEq, true_and]
      exact ih h

theorem lookupA_append_of_none {β : Type} {k : Name} {l1 l2 : List (Name × β)}
    (h : lookupA k l1 = none) : lookupA k (l1 ++ l2) = lookupA k l2 := by
  induction l1 with
  | nil => simp
  | cons p rest ih =>
    rw [show p = (p.1, p.2) from rfl] at h ⊢
    by_cases hk : k = p.1
    · simp [lookupA, hk] at h
    · simp only [lookupA, if_neg hk] at h
      simp only [List.cons_append, lookupA, if_neg hk]
      exact ih h

theorem lookupA_append_of_some {β : Type} {k : Name} {v : β} {l1 l2 : List (Name × β)}
    (h : lookupA k l1 = some v) : lookupA k (l1 ++ l2) = some v := by
  induction l1 with
  | nil => simp [lookupA] at h
  | cons p rest ih =>
    rw [show p = (p.1, p.2) from rfl] at h ⊢
    by_cases hk : k = p.1
    · simp [lookupA, hk] at h ⊢
      exact h
    · simp only [lookupA, if_neg hk] at h
      simp only [List.cons_append, lookupA, if_neg hk]
      exact ih h

theorem lookupN_append_fresh {β : Type} {k : Nat} {v : β} :
    ∀ {l : List (Nat × β)}, (∀ p ∈ l, p.1 ≠ k) → lookupN k (l ++ [(k, v)]) = some v := by
  intro l
  induction l with
  | nil => intro _; simp [lookupN]
  | cons p rest ih =>
    intro h
    have hk : k ≠ p.1 := fun hkk => (h p (List.mem_cons_self _ _)) (hkk.symm)
    rw [show p = (p.1, p.2) from rfl]
    simp only [List.cons_append, lookupN, if_neg hk]
    exact ih fun q hq => h q (List.mem_cons_of_mem _ hq)

/-! ### Claim C10 -/

/-- C10: calling `Component.start` when the component is already started
returns immediately without invoking the `_start` hook again, leaving the
wrapped object and the started flag unchanged; hence two consecutive
`start()` calls are equivalent to one. -/
theorem component_start_idempotent (hookOk : Bool) (objVal : Nat)
    (name : Name) (c : CompInst) :
    (c.started = true → CompInst.start hookOk objVal name c = .ok (c, false)) ∧
    (∀ c' invoked, CompInst.start hookOk objVal name c = .ok (c', invoked) →
      CompInst.start hookOk objVal name c' = .ok (c', false)) := by
  constructor
  · intro h
    simp [CompInst.start, h]
  · intro c' invoked h
    have hstarted : c'.started = true := by
      by_cases hs : c.started = true
      · simp [CompInst.start, hs] at h
        rw [← h.1, hs]
      · simp only [CompInst.start, if_neg hs] at h
        cases hc : c.config with
        | none => rw [hc] at h; cases h
        | some cf =>
          rw [hc] at h
          by_cases hh : hookOk = true
          · rw [if_pos hh] at h
            cases h
            rfl
          · rw [if_neg hh] at h
            cases h
    simp [CompInst.start, hstarted]

/-- Witness for C10 at a concrete started component. -/
theorem component_start_idempotent_witness :
    CompInst.start true 7 "x" { config := some cfg1, obj := some 3, started := true } =
      .ok ({ config := some cfg1, obj := some 3, started := true }, false) :=
  (component_start_idempotent true 7 "x"
    { config := some cfg1, obj := some 3, started := true }).1 rfl

/-! ### Claim C5 -/

/-- C5: requesting a `SINGLETON` instance twice returns the identical cached
instance; requesting a `REQUEST` instance twice with the same scope cache
returns the identical instance; requesting a `REQUEST` instance twice with no
scope returns two distinct instances. -/
theorem get_component_caching (st : AppState) (n m : Name) (sid : Nat)
    (infoS infoR : ComponentInfo)
    (hs : lookupA n st.components = some infoS) (hS : infoS.strategy = .SINGLETON)
    (hr : lookupA m st.components = some infoR) (hR : infoR.strategy = .REQUEST) :
    (∀ id st1, getComponent st n none = .ok (id, st1) →
        getComponent st1 n none = .ok (id, st1)) ∧
    (∀ id st1, getComponent st m (some sid) = .ok (id, st1) →
        getComponent st1 m (some sid) = .ok (id, st1)) ∧
    (∀ id1 st1 id2 st2, getComponent st m none = .ok (id1, st1) →
        getComponent st1 m none = .ok (id2, st2) → id1 ≠ id2) := by
  refine ⟨?_, ?_, ?_⟩
  · intro id st1 h
    cases hinst : lookupA n st.instances with
    | some id0 =>
      simp only [getComponent, hs, if_pos hS, hinst] at h
      cases h
      simp only [getComponent, hs, if_pos hS, hinst]
    | none =>
      simp only [getComponent, hs, if_pos hS, hinst] at h
      cases h
      simp only [getComponent, hs, if_pos hS, lookupA_updateA_self]
  · intro id st1 h
    have hRne : ¬ infoR.strategy = ComponentStrategy.SINGLETON := by
      rw [hR]; intro hh; cases hh
    cases hcache : lookupA m ((lookupN sid st.scopes).getD []) with
    | some id0 =>
      simp only [getComponent, hr, if_neg hRne, hcache] at h
      cases h
      simp only [getComponent, hr, if_neg hRne, hcache]
    | none =>
      simp only [getComponent, hr, if_neg hRne, hcache] at h
      cases h
      simp only [getComponent, hr, if_neg hRne, lookupN_updateN_self,
        Option.getD_some, lookupA_updateA_self]
  · intro id1 st1 id2 st2 h1 h2
    have hRne : ¬ infoR.strategy = ComponentStrategy.SINGLETON := by
      rw [hR]; intro hh; cases hh
    simp only [getComponent, hr, if_neg hRne] at h1
    cases h1
    simp only [getComponent, hr, if_neg hRne] at h2
    cases h2
    omega

/-- Witness for C5 on the concrete applications `exAB` (singleton `A`) and
`exReq` (request component `r1`), scope id `0`. -/
theorem get_component_caching_witness :
    let st := { freshApp (exAB ++ exReq) with scopes := [(0, [])], nextScope := 1 }
    (∀ id st1, getComponent st "A" none = .ok (id, st1) →
        getComponent st1 "A" none = .ok (id, st1)) ∧
    (∀ id st1, getComponent st "r1" (some 0) = .ok (id, st1) →
        getComponent st1 "r1" (some 0) = .ok (id, st1)) ∧
    (∀ id1 st1 id2 st2, getComponent st "r1" none = .ok (id1, st1) →
        getComponent st1 "r1" none = .ok (id2, st2) → id1 ≠ id2) :=
  get_component_caching _ "A" "r1" 0 _ _ (by rfl) (by rfl) (by rfl) (by rfl)

/-! ### Claim C9 -/

/-- C9: reading a `REQUEST`-strategy component as an attribute of the app
while no request scope is active raises a `RuntimeError` instead of returning
a fresh instance; the fresh-instance fallback exists only on the direct
container lookup path (`get_component` with no scope cache), which succeeds
and caches nothing. -/
theorem request_attr_requires_scope (st : AppState) (n : Name)
    (info : ComponentInfo) (h : lookupA n st.components = some info)
    (hreq : info.strategy = .REQUEST) (hcur : st.current = none) :
    descriptorGet st n = .error (.requestOutsideScope n) ∧
    ∃ st1, getComponent st n none = .ok (st.nextId, st1) ∧
      st1.instances = st.instances ∧ st1.scopes = st.scopes ∧
      st1.nextId = st.nextId + 1 := by
  have hRne : ¬ info.strategy = ComponentStrategy.SINGLETON := by
    rw [hreq]; intro hh; cases hh
  constructor
  · simp [descriptorGet, h, hreq, hcur]
  · refine ⟨{ st with
              heap := updateN st.nextId (mkInst info.config) st.heap,
              nextId := st.nextId + 1 }, ?_, rfl, rfl, rfl⟩
    simp only [getComponent, h, if_neg hRne]

/-- Witness for C9: request component `r1` of `exReq`, no active scope. -/
theorem request_attr_requires_scope_witness :
    descriptorGet (freshApp exReq) "r1" = .error (.requestOutsideScope "r1") ∧
    ∃ st1, getComponent (freshApp exReq) "r1" none = .ok (0, st1) ∧
      st1.instances = [] ∧ st1.scopes = [] ∧ st1.nextId = 1 :=
  request_attr_requires_scope (freshApp exReq) "r1" _ (by rfl) (by rfl) (by rfl)

/-! ### Claim C8 (corrected) -/

/-- C8 counterexample: configuring a component whose prior state is `STARTED`
does not fail with `InvalidTransitionError` and does not force `ERROR`;
`DIContainer.configure` assigns `CONFIGURED` directly, bypassing
`set_state`. -/
theorem configure_started_counterexample :
    (DIConfigure (freshApp exStarted) "x" [("k", 2)]).toOption.map
        (fun st => (lookupA "x" st.components).map ComponentInfo.state) =
      some (some .CONFIGURED) := by
  rfl

/-- C8 amended: `configure` fails with the unknown-component error when the
name is not registered; otherwise — whatever the prior state — it sets the
config and assigns the state `CONFIGURED` directly, never raising
`InvalidTransitionError` and never forcing `ERROR`. -/
theorem configure_unconditional (st : AppState) (n : Name) (c : ConfigDict) :
    (lookupA n st.components = none → DIConfigure st n c = .error (.notRegistered n)) ∧
    (∀ info, lookupA n st.components = some info →
      DIConfigure st n c =
        .ok ({ st with
               components :=
                 updateA n ({ info with config := some c, state := .CONFIGURED })
                   st.components })) := by
  constructor
  · intro h
    simp [DIConfigure, h]
  · intro info h
    simp [DIConfigure, h]

/-- Witness for C8's amended claim: configuring the `STARTED` component of
`exStarted` succeeds and rewrites its state to `CONFIGURED`. -/
theorem configure_unconditional_witness :
    DIConfigure (freshApp exStarted) "x" [("k", 2)] =
      .ok { freshApp exStarted with
            components := updateA "x"
              { strategy := .SINGLETON, dependencies := [], config := some [("k", 2)],
                instRef := none, state := .CONFIGURED }
              (freshApp exStarted).components } :=
  (configure_unconditional (freshApp exStarted) "x" [("k", 2)]).2
    { strategy := .SINGLETON, dependencies := [], config := some cfg1,
      instRef := none, state := .STARTED } rfl

/-! ### Claim C7 (corrected) -/

theorem healthGo_spec (probe : Name → Except Err Bool) (st : AppState) :
    ∀ (l : List Name) (acc : List (Name × Bool)), l.Nodup →
    (∀ n ∈ l, lookupA n acc = none) →
    (∀ n ∈ l, ∃ info, lookupA n st.components = some info ∧
       (info.instRef.isSome = true → ∃ b, probe n = .ok b)) →
    ∃ out, healthGo probe st l acc = .ok (acc ++ out) ∧
      out.map Prod.fst = l ∧
      (∀ n info, lookupA n st.components = some info → n ∈ l →
        (info.instRef = none → lookupA n out = some true) ∧
        (∀ b, info.instRef.isSome = true → probe n = .ok b →
          lookupA n out = some b)) := by
  intro l
  induction l with
  | nil =>
    intro acc _ _ _
    exact ⟨[], by simp [healthGo], rfl, by simp⟩
  | cons n rest ih =>
    intro acc hnodup hfresh hinfo
    obtain ⟨info, hlook, hprobe⟩ := hinfo n (List.mem_cons_self _ _)
    have hnrest : n ∉ rest := (List.nodup_cons.1 hnodup).1
    have hrestnodup : rest.Nodup := (List.nodup_cons.1 hnodup).2
    have hne : ∀ m ∈ rest, m ≠ n := fun m hm hmn => hnrest (hmn ▸ hm)
    have step : ∀ (b : Bool),
        (∃ out, healthGo probe st rest (updateA n b acc) = .ok (acc ++ ((n, b) :: out)) ∧
          out.map Prod.fst = rest ∧
          (∀ m minfo, lookupA m st.components = some minfo → m ∈ rest →
            (minfo.instRef = none → lookupA m out = some true) ∧
            (∀ b', minfo.instRef.isSome = true → probe m = .ok b' →
              lookupA m out = some b'))) := by
      intro b
      have hacc : updateA n b acc = acc ++ [(n, b)] :=
        updateA_fresh _ (hfresh n (List.mem_cons_self _ _))
      have hfresh' : ∀ m ∈ rest, lookupA m (acc ++ [(n, b)]) = none := by
        intro m hm
        rw [lookupA_append_of_none (hfresh m (List.mem_cons_of_mem _ hm))]
        simp [lookupA, hne m hm]
      obtain ⟨out, hrun, hkeys, hvals⟩ :=
        ih (acc ++ [(n, b)]) hrestnodup hfresh'
          (fun m hm => hinfo m (List.mem_cons_of_mem _ hm))
      refine ⟨out, ?_, hkeys, hvals⟩
      rw [hacc, hrun, List.append_assoc]
      rfl
    cases href : info.instRef with
    | none =>
      have hunfold : healthGo probe st (n :: rest) acc =
          healthGo probe st rest (updateA n true acc) := by
        simp [healthGo, hlook, href]
      obtain ⟨out, hrun, hkeys, hvals⟩ := step true
      refine ⟨(n, true) :: out, hunfold.trans hrun, by simp [hkeys], ?_⟩
      intro m minfo hmlook hm
      rcases List.mem_cons.1 hm with rfl | hm
      · have heq : minfo = info := by rw [hmlook] at hlook; exact Option.some.inj hlook
        subst heq
        constructor
        · intro _
          simp [lookupA]
        · intro b' hsome _
          rw [href] at hsome
          simp at hsome
      · have hmn : m ≠ n := hne m hm
        have hv := hvals m minfo hmlook hm
        constructor
        · intro hnone
          simpa [lookupA, hmn] using hv.1 hnone
        · intro b' hsome hpb
          simpa [lookupA, hmn] using hv.2 b' hsome hpb
    | some id =>
      obtain ⟨b, hpb⟩ := hprobe (by simp [href])
      have hunfold : healthGo probe st (n :: rest) acc =
          healthGo probe st rest (updateA n b acc) := by
        simp [healthGo, hlook, href, hpb]
      obtain ⟨out, hrun, hkeys, hvals⟩ := step b
      refine ⟨(n, b) :: out, hunfold.trans hrun, by simp [hkeys], ?_⟩
      intro m minfo hmlook hm
      rcases List.mem_cons.1 hm with rfl | hm
      · have heq : minfo = info := by rw [hmlook] at hlook; exact Option.some.inj hlook
        subst heq
        constructor
        · intro hnone
          rw [href] at hnone
          cases hnone
        · intro b' _ hpb'
          rw [hpb] at hpb'
          have : b = b' := Except.ok.inj hpb'
          subst this
          simp [lookupA]
      · have hmn : m ≠ n := hne m hm
        have hv := hvals m minfo hmlook hm
        constructor
        · intro hnone
          simpa [lookupA, hmn] using hv.1 hnone
        · intro b' hsome hpb'
          simpa [lookupA, hmn] using hv.2 b' hsome hpb'

/-- C7 counterexample: with singletons `A` and `B` both started, a liveness
probe that throws on `A` aborts `healthcheck` entirely — the exception
propagates, no map is returned, and `B`'s result is suppressed
(`healthcheck` has no try/except around `is_alive`). -/
theorem healthcheck_throwing_probe_counterexample :
    healthcheck probeThrowA exHealth = .error (.userError "probe exploded") := by
  rfl

/-- C7 amended: `healthcheck` produces a name-to-boolean map covering exactly
the currently-started singletons (empty when none are started); a component
whose instance is absent records `true`; and when every probe returns
(rather than throws), each component records its own probe's boolean, so one
`false` probe does not suppress the results of the others.  A probe that
throws, however, propagates and aborts the whole healthcheck. -/
theorem healthcheck_covers_started (probe : Name → Except Err Bool)
    (st : AppState) (hnodup : st.started.Nodup)
    (hinfo : ∀ n ∈ st.started, ∃ info, lookupA n st.components = some info ∧
       (info.instRef.isSome = true → ∃ b, probe n = .ok b)) :
    ∃ res, healthcheck probe st = .ok res ∧
      res.map Prod.fst = st.started ∧
      (st.started = [] → res = []) ∧
      (∀ n info, lookupA n st.components = some info → n ∈ st.started →
        (info.instRef = none → lookupA n res = some true) ∧
        (∀ b, info.instRef.isSome = true → probe n = .ok b →
          lookupA n res = some b)) := by
  obtain ⟨out, hrun, hkeys, hvals⟩ :=
    healthGo_spec probe st st.started [] hnodup (by intro n _; rfl) hinfo
  refine ⟨out, by simpa [healthcheck] using hrun, hkeys, ?_, hvals⟩
  intro h
  rw [h] at hkeys
  exact List.map_eq_nil_iff.1 hkeys

/-- Witness for C7's amended claim: `exHealth` with a probe returning `false`
on `A`; both components keep their own results. -/
theorem healthcheck_covers_started_witness :
    ∃ res, healthcheck probeFalseA exHealth = .ok res ∧
      res.map Prod.fst = exHealth.started ∧
      (exHealth.started = [] → res = []) ∧
      (∀ n info, lookupA n exHealth.components = some info → n ∈ exHealth.started →
        (info.instRef = none → lookupA n res = some true) ∧
        (∀ b, info.instRef.isSome = true → probeFalseA n = .ok b →
          lookupA n res = some b)) := by
  refine healthcheck_covers_started probeFalseA exHealth (by decide) ?_
  intro n hn
  have hn' : n = "A" ∨ n = "B" := by simpa [exHealth] using hn
  rcases hn' with rfl | rfl
  · exact ⟨_, rfl, fun _ => ⟨false, rfl⟩⟩
  · exact ⟨_, rfl, fun _ => ⟨true, rfl⟩⟩

/-! ### Claim C4 -/

theorem stopGo_spec (stopOk : Name → Bool) :
    ∀ (l : List Name) (st : AppState), l.Nodup →
    (∀ n ∈ l, stopOk n = true) →
    (∀ n ∈ l, ∃ info, lookupA n st.components = some info ∧
        info.state = .STARTED ∧ ∃ id, info.instRef = some id ∧
        (lookupN id st.heap).isSome = true) →
    ∃ st', stopGo stopOk l st = .ok st' ∧
      st'.events = st.events ++ l.map Event.stopH ∧
      st'.started = st.started ∧
      st'.instances = st.instances ∧
      st'.current = st.current ∧
      (∀ m, m ∉ l → lookupA m st'.components = lookupA m st.components) ∧
      (∀ n ∈ l, ∃ info', lookupA n st'.components = some info' ∧
        info'.state = .STOPPED ∧ info'.instRef = none) := by
  intro l
  induction l with
  | nil =>
    intro st _ _ _
    exact ⟨st, rfl, by simp, rfl, rfl, rfl, fun _ _ => rfl, by simp⟩
  | cons n rest ih =>
    intro st hnodup hstop hprops
    obtain ⟨info, hlook, hstate, id, href, hheap⟩ := hprops n (List.mem_cons_self _ _)
    obtain ⟨inst, hinst⟩ := Option.isSome_iff_exists.1 hheap
    have hso : stopOk n = true := hstop n (List.mem_cons_self _ _)
    have hnrest : n ∉ rest := (List.nodup_cons.1 hnodup).1
    have hne : ∀ m ∈ rest, m ≠ n := fun m hm hmn => hnrest (hmn ▸ hm)
    obtain ⟨inst', hstopInst⟩ :
        ∃ inst', CompInst.stop (stopOk n) n inst = .ok inst' := by
      unfold CompInst.stop
      by_cases hs : inst.started = true
      · rw [hso]
        simp [hs]
      · simp [hs]
    have hsetState : info.setState .STOPPED = .ok { info with state := .STOPPED } := by
      simp [ComponentInfo.setState, hstate, validTransitions]
    set st2 : AppState :=
      { st with
        events := st.events ++ [.stopH n],
        heap := updateN id inst' st.heap,
        components := updateA n { info with state := .STOPPED, instRef := none }
          st.components } with hst2
    have hunfold : stopGo stopOk (n :: rest) st = stopGo stopOk rest st2 := by
      simp only [stopGo, hlook, href, hinst, hstopInst, hsetState, hst2]
    have hprops2 : ∀ m ∈ rest, ∃ minfo, lookupA m st2.components = some minfo ∧
        minfo.state = .STARTED ∧ ∃ mid, minfo.instRef = some mid ∧
        (lookupN mid st2.heap).isSome = true := by
      intro m hm
      obtain ⟨minfo, hml, hms, mid, hmr, hmh⟩ := hprops m (List.mem_cons_of_mem _ hm)
      refine ⟨minfo, ?_, hms, mid, hmr, ?_⟩
      · rw [hst2]
        simpa [lookupA_updateA_ne (hne m hm)] using hml
      · rw [hst2]
        by_cases hid : mid = id
        · subst hid
          simp [lookupN_updateN_self]
        · simpa [lookupN_updateN_ne hid] using hmh
    obtain ⟨st', hrun, hev, hstarted, hinstc, hcur, hframe, hdone⟩ :=
      ih st2 (List.nodup_cons.1 hnodup).2
        (fun m hm => hstop m (List.mem_cons_of_mem _ hm)) hprops2
    refine ⟨st', hunfold.trans hrun, ?_, ?_, ?_, ?_, ?_, ?_⟩
    · rw [hev, hst2]
      simp
    · rw [hstarted, hst2]
    · rw [hinstc, hst2]
    · rw [hcur, hst2]
    · intro m hm
      have hm1 : m ≠ n := fun hmn => hm (hmn ▸ List.mem_cons_self _ _)
      have hm2 : m ∉ rest := fun hmr => hm (List.mem_cons_of_mem _ hmr)
      rw [hframe m hm2, hst2]
      exact lookupA_updateA_ne hm1 _ _
    · intro m hm
      rcases List.mem_cons.1 hm with rfl | hm
      · refine ⟨{ info with state := .STOPPED, instRef := none }, ?_, rfl, rfl⟩
        rw [hframe m hnrest, hst2]
        exact lookupA_updateA_self _ _ _
      · exact hdone m hm

/-- C4: after a successful `start()` — whose final state satisfies exactly the
hypotheses below — `stop()` calls the stop hook of each started singleton in
exact reverse of the recorded start order, transitions each to `STOPPED`,
discards each cached instance reference, and clears the started-order record;
calling `stop()` with nothing started is a no-op, and a second `stop()` is a
no-op. -/
theorem stop_reverse_order (st : AppState) (stopOk : Name → Bool)
    (hnodup : st.started.Nodup)
    (hstop : ∀ n ∈ st.started, stopOk n = true)
    (hprops : ∀ n ∈ st.started, ∃ info, lookupA n st.components = some info ∧
        info.state = .STARTED ∧ ∃ id, info.instRef = some id ∧
        (lookupN id st.heap).isSome = true) :
    ∃ st', appStop stopOk st = .ok st' ∧
      st'.events = st.events ++ st.started.reverse.map Event.stopH ∧
      st'.started = [] ∧
      (∀ n ∈ st.started, ∃ info', lookupA n st'.components = some info' ∧
          info'.state = .STOPPED ∧ info'.instRef = none) ∧
      (st.started = [] → st' = st) ∧
      appStop stopOk st' = .ok st' := by
  obtain ⟨st1, hrun, hev, hstarted, hinstc, hcur, hframe, hdone⟩ :=
    stopGo_spec stopOk st.started.reverse st (List.nodup_reverse.2 hnodup)
      (fun n hn => hstop n (List.mem_reverse.1 hn))
      (fun n hn => hprops n (List.mem_reverse.1 hn))
  refine ⟨{ st1 with started := [] }, ?_, ?_, rfl, ?_, ?_, ?_⟩
  · simp only [appStop, hrun]
  · exact hev
  · intro n hn
    exact hdone n (List.mem_reverse.2 hn)
  · intro h
    have hrev : st.started.reverse = [] := by rw [h]; rfl
    rw [hrev] at hrun
    have hst1 : st1 = st := by
      have h3 : (Except.ok st : Except (Err × AppState) AppState) = .ok st1 := hrun
      exact (Except.ok.inj h3).symm
    rw [hst1, ← h]
  · rfl

/-- Witness for C4 on `exHealth` (started singletons `A` then `B`). -/
theorem stop_reverse_order_witness :
    ∃ st', appStop allOk exHealth = .ok st' ∧
      st'.events = exHealth.events ++ exHealth.started.reverse.map Event.stopH ∧
      st'.started = [] ∧
      (∀ n ∈ exHealth.started, ∃ info', lookupA n st'.components = some info' ∧
          info'.state = .STOPPED ∧ info'.instRef = none) ∧
      (exHealth.started = [] → st' = exHealth) ∧
      appStop allOk st' = .ok st' := by
  refine stop_reverse_order exHealth allOk (by decide) (fun n _ => rfl) ?_
  intro n hn
  have hn' : n = "A" ∨ n = "B" := by simpa [exHealth] using hn
  rcases hn' with rfl | rfl
  · exact ⟨_, rfl, rfl, 0, rfl, rfl⟩
  · exact ⟨_, rfl, rfl, 1, rfl, rfl⟩

/-! ### Claim C6 -/

theorem foldl_firstOcc_nodup :
    ∀ (gets : List Name) (acc : List Name), acc.Nodup →
      (gets.foldl (fun acc n => if n ∈ acc then acc else acc ++ [n]) acc).Nodup := by
  intro gets
  induction gets with
  | nil => intro acc h; exact h
  | cons n rest ih =>
    intro acc h
    simp only [List.foldl_cons]
    by_cases hn : n ∈ acc
    · rw [if_pos hn]
      exact ih acc h
    · rw [if_neg hn]
      refine ih _ ?_
      simp [List.nodup_append, h, hn]

theorem scopeNames_nodup (gets : List Name) : (scopeNames gets).Nodup :=
  foldl_firstOcc_nodup gets [] List.nodup_nil

theorem scopeGetsGo_spec (mgr : ScopeMgr) :
    ∀ (gets : List Name) (st : AppState) (cache : List (Name × Nat)),
    lookupN mgr.sid st.scopes = some cache →
    (∀ p ∈ cache, ∃ inst, lookupN p.2 st.heap = some inst ∧ inst.started = false) →
    (∀ p ∈ st.heap, p.1 < st.nextId) →
    (∀ n ∈ gets, ∃ info, lookupA n st.components = some info ∧
        info.strategy = .REQUEST) →
    ∃ st2 cache2, scopeGetsGo gets mgr st = .ok st2 ∧
      lookupN mgr.sid st2.scopes = some cache2 ∧
      cache2.map Prod.fst =
        gets.foldl (fun acc n => if n ∈ acc then acc else acc ++ [n])
          (cache.map Prod.fst) ∧
      (∀ p ∈ cache2, ∃ inst, lookupN p.2 st2.heap = some inst ∧
        inst.started = false) ∧
      st2.events = st.events ∧ st2.current = st.current := by
  intro gets
  induction gets with
  | nil =>
    intro st cache hcache hinsts _ _
    exact ⟨st, cache, rfl, hcache, rfl, hinsts, rfl, rfl⟩
  | cons n rest ih =>
    intro st cache hcache hinsts hheap hreq
    obtain ⟨info, hlook, hstrat⟩ := hreq n (List.mem_cons_self _ _)
    have hSne : ¬ info.strategy = ComponentStrategy.SINGLETON := by
      rw [hstrat]; intro hh; cases hh
    cases hincache : lookupA n cache with
    | some id =>
      have hstep : scopeGetsGo (n :: rest) mgr st = scopeGetsGo rest mgr st := by
        simp only [scopeGetsGo, getComponent, hlook, if_neg hSne, hcache,
          Option.getD_some, hincache]
      obtain ⟨st2, cache2, hrun, hc2, hfold, hi2, hev, hcur⟩ :=
        ih st cache hcache hinsts hheap
          (fun m hm => hreq m (List.mem_cons_of_mem _ hm))
      refine ⟨st2, cache2, hstep.trans hrun, hc2, ?_, hi2, hev, hcur⟩
      rw [hfold]
      have hmem : n ∈ cache.map Prod.fst :=
        List.mem_map.2 ⟨(n, id), lookupA_mem hincache, rfl⟩
      simp [hmem]
    | none =>
      set id := st.nextId with hid
      set st' : AppState :=
        { st with
          heap := updateN id (mkInst info.config) st.heap,
          scopes := updateN mgr.sid (updateA n id cache) st.scopes,
          nextId := id + 1 } with hst'
      have hstep : scopeGetsGo (n :: rest) mgr st = scopeGetsGo rest mgr st' := by
        simp only [scopeGetsGo, getComponent, hlook, if_neg hSne, hcache,
          Option.getD_some, hincache, hst', hid]
      have hfreshcache : updateA n id cache = cache ++ [(n, id)] :=
        updateA_fresh _ hincache
      have hcache' : lookupN mgr.sid st'.scopes = some (cache ++ [(n, id)]) := by
        rw [hst']
        simp only [lookupN_updateN_self, hfreshcache]
      have hinsts' : ∀ p ∈ cache ++ [(n, id)],
          ∃ inst, lookupN p.2 st'.heap = some inst ∧ inst.started = false := by
        intro p hp
        rcases List.mem_append.1 hp with hp | hp
        · obtain ⟨inst, hilook, histart⟩ := hinsts p hp
          have hlt : p.2 < id := by
            have := hheap (p.2, inst) (lookupN_mem hilook)
            simpa [hid] using this
          refine ⟨inst, ?_, histart⟩
          rw [hst']
          simpa [lookupN_updateN_ne (Nat.ne_of_lt hlt)] using hilook
        · have hp' : p = (n, id) := by simpa using hp
          subst hp'
          refine ⟨mkInst info.config, ?_, rfl⟩
          rw [hst']
          simp [lookupN_updateN_self]
      have hheap' : ∀ p ∈ st'.heap, p.1 < st'.nextId := by
        intro p hp
        rw [hst'] at hp ⊢
        simp only at hp ⊢
        rcases mem_updateN hp with hp | hp
        · exact Nat.lt_succ_of_lt (hheap p hp)
        · rw [hp]
          exact Nat.lt_succ_self _
      obtain ⟨st2, cache2, hrun, hc2, hfold, hi2, hev, hcur⟩ :=
        ih st' (cache ++ [(n, id)]) hcache' hinsts' hheap'
          (fun m hm => by
            obtain ⟨minfo, hml, hms⟩ := hreq m (List.mem_cons_of_mem _ hm)
            exact ⟨minfo, by rw [hst']; exact hml, hms⟩)
      refine ⟨st2, cache2, hstep.trans hrun, hc2, ?_, hi2,
        by rw [hev, hst'], by rw [hcur, hst']⟩
      rw [hfold]
      have hnmem : n ∉ cache.map Prod.fst := lookupA_eq_none.1 hincache
      simp [hnmem]

theorem scopeStopGo_spec (stopOk : Name → Bool) :
    ∀ (entries : List (Name × Nat)) (st : AppState),
    (∀ p ∈ entries, ∃ inst, lookupN p.2 st.heap = some inst ∧
      inst.started = false) →
    ∃ st3, scopeStopGo stopOk entries st = .ok st3 ∧
      st3.events = st.events ++ entries.map (fun p => Event.stopH p.1) ∧
      st3.scopes = st.scopes ∧ st3.current = st.current := by
  intro entries
  induction entries with
  | nil =>
    intro st _
    exact ⟨st, rfl, by simp, rfl, rfl⟩
  | cons p rest ih =>
    intro st hinsts
    obtain ⟨inst, hilook, histart⟩ := hinsts p (List.mem_cons_self _ _)
    have hstop : CompInst.stop (stopOk p.1) p.1 inst = .ok inst := by
      simp [CompInst.stop, histart]
    set st1 : AppState :=
      { st with
        events := st.events ++ [.stopH p.1],
        heap := updateN p.2 inst st.heap } with hst1
    have hstep : scopeStopGo stopOk (p :: rest) st = scopeStopGo stopOk rest st1 := by
      rw [show p = (p.1, p.2) from rfl]
      simp only [scopeStopGo, hilook, hstop, hst1]
    have hinsts' : ∀ q ∈ rest, ∃ qinst, lookupN q.2 st1.heap = some qinst ∧
        qinst.started = false := by
      intro q hq
      obtain ⟨qinst, hql, hqs⟩ := hinsts q (List.mem_cons_of_mem _ hq)
      by_cases hqid : q.2 = p.2
      · refine ⟨inst, ?_, histart⟩
        rw [hst1, hqid]
        simp [lookupN_updateN_self]
      · refine ⟨qinst, ?_, hqs⟩
        rw [hst1]
        simpa [lookupN_updateN_ne hqid] using hql
    obtain ⟨st3, hrun, hev, hscopes, hcur⟩ := ih st1 hinsts'
    refine ⟨st3, hstep.trans hrun, ?_, by rw [hscopes, hst1], by rw [hcur, hst1]⟩
    rw [hev, hst1]
    simp

/-- C6: entering and exiting a request scope — on every exit path, whether
the body completed normally or raised — calls the stop hook of every instance
the scope created exactly once, clears the scope cache, and restores the
previously active scope (so nested scopes behave LIFO). -/
theorem request_scope_releases_instances (st : AppState) (stopOk : Name → Bool)
    (gets : List Name) (bodyErr : Option Err)
    (hscopes : ∀ p ∈ st.scopes, p.1 < st.nextScope)
    (hheap : ∀ p ∈ st.heap, p.1 < st.nextId)
    (hreq : ∀ n ∈ gets, ∃ info, lookupA n st.components = some info ∧
        info.strategy = .REQUEST) :
    ∃ st', (withRequestScope stopOk gets bodyErr st =
        match bodyErr with
        | none => .ok st'
        | some e => .error (e, st')) ∧
      st'.events = st.events ++ (scopeNames gets).map Event.stopH ∧
      (scopeNames gets).Nodup ∧
      lookupN st.nextScope st'.scopes = some [] ∧
      st'.current = st.current := by
  set sid := st.nextScope with hsid
  set mgr : ScopeMgr := ⟨sid, st.current⟩ with hmgr
  set st1 : AppState :=
    { st with
      scopes := st.scopes ++ [(sid, [])],
      nextScope := sid + 1,
      current := some sid } with hst1
  have hcache1 : lookupN sid st1.scopes = some [] := by
    rw [hst1]
    exact lookupN_append_fresh fun p hp => Nat.ne_of_lt (hscopes p hp)
  obtain ⟨st2, cache2, hbody, hc2, hfold, hi2, hev2, hcur2⟩ :=
    scopeGetsGo_spec mgr gets st1 [] hcache1 (by simp)
      (fun p hp => hheap p hp) (fun n hn => hreq n hn)
  have hfold' : cache2.map Prod.fst = scopeNames gets := hfold
  have hexit : ∃ st3 : AppState, requestScopeExit stopOk mgr st2 =
      .ok ({ st3 with
             scopes := updateN sid [] st3.scopes,
             current := mgr.token }) ∧
      st3.events = st2.events ++ cache2.map (fun p => Event.stopH p.1) := by
    obtain ⟨st3, hrun3, hev3, hscopes3, hcur3⟩ := scopeStopGo_spec stopOk cache2 st2 hi2
    refine ⟨st3, ?_, hev3⟩
    simp only [requestScopeExit, hc2, Option.getD_some, hrun3]
  obtain ⟨st3, hexitrun, hev3⟩ := hexit
  refine ⟨{ st3 with
            scopes := updateN sid [] st3.scopes,
            current := mgr.token }, ?_, ?_, scopeNames_nodup gets, ?_, ?_⟩
  · have hexitrun' : requestScopeExit stopOk ⟨st.nextScope, st.current⟩ st2 =
        Except.ok ({ st3 with
                     scopes := updateN sid [] st3.scopes,
                     current := mgr.token }) := hexitrun
    cases bodyErr with
    | none =>
      simp only [withRequestScope, requestScopeEnter]
      rw [show ({ st with
                  scopes := st.scopes ++ [(st.nextScope, [])],
                  nextScope := st.nextScope + 1,
                  current := some st.nextScope } : AppState) = st1 from rfl]
      rw [hbody]
      dsimp only
      rw [hexitrun']
    | some e =>
      simp only [withRequestScope, requestScopeEnter]
      rw [show ({ st with
                  scopes := st.scopes ++ [(st.nextScope, [])],
                  nextScope := st.nextScope + 1,
                  current := some st.nextScope } : AppState) = st1 from rfl]
      rw [hbody]
      dsimp only
      rw [hexitrun']
  · show st3.events = st.events ++ (scopeNames gets).map Event.stopH
    rw [hev3, hev2, hst1]
    simp only [← hfold', List.map_map]
    rfl
  · show lookupN st.nextScope (updateN sid [] st3.scopes) = some []
    rw [hsid]
    exact lookupN_updateN_self _ _ _
  · rfl

/-- Witness for C6: `exReq` with accesses `r1, r2, r1` and a body that
raises. -/
theorem request_scope_releases_instances_witness :
    ∃ st', (withRequestScope allOk ["r1", "r2", "r1"] (some (.userError "boom"))
        (freshApp exReq) =
        match some (Err.userError "boom") with
        | none => .ok st'
        | some e => .error (e, st')) ∧
      st'.events = (freshApp exReq).events ++
        (scopeNames ["r1", "r2", "r1"]).map Event.stopH ∧
      (scopeNames ["r1", "r2", "r1"]).Nodup ∧
      lookupN (freshApp exReq).nextScope st'.scopes = some [] ∧
      st'.current = (freshApp exReq).current := by
  refine request_scope_releases_instances (freshApp exReq) allOk _ _
    (by intro p hp; cases hp) (by intro p hp; cases hp) ?_
  intro n hn
  have hn' : n = "r1" ∨ n = "r2" := by
    rcases hn with _ | ⟨_, hn⟩
    · exact Or.inl rfl
    · rcases hn with _ | ⟨_, hn⟩
      · exact Or.inr rfl
      · rcases hn with _ | ⟨_, hn⟩
        · exact Or.inl rfl
        · cases hn
  rcases hn' with rfl | rfl
  · exact ⟨_, rfl, rfl⟩
  · exact ⟨_, rfl, rfl⟩

/-! ### Graph lemmas: pigeonhole cycle extraction and skeleton transfer -/

theorem cycle_of_all_have_succ {r : Name → Name → Prop} (U : List Name)
    (hne : U ≠ []) (h : ∀ u ∈ U, ∃ d, r u d ∧ d ∈ U) :
    ∃ x, Relation.TransGen r x x := by
  classical
  choose! f hf1 hf2 using h
  obtain ⟨u0, hu0⟩ := List.exists_mem_of_ne_nil U hne
  have hseq : ∀ i : Nat, f^[i] u0 ∈ U := by
    intro i
    induction i with
    | zero => simpa using hu0
    | succ i ih =>
      rw [Function.iterate_succ_apply']
      exact hf2 _ ih
  have hstep : ∀ i : Nat, r (f^[i] u0) (f^[i + 1] u0) := by
    intro i
    rw [Function.iterate_succ_apply']
    exact hf1 _ (hseq i)
  have hchain : ∀ i j : Nat, i < j → Relation.TransGen r (f^[i] u0) (f^[j] u0) := by
    intro i j hij
    induction j with
    | zero => omega
    | succ j ih =>
      rcases Nat.lt_succ_iff_lt_or_eq.1 hij with hij' | hij'
      · exact (ih hij').tail (hstep j)
      · subst hij'
        exact Relation.TransGen.single (hstep i)
  have hcard : Fintype.card { x // x ∈ U.toFinset } < Fintype.card (Fin (U.length + 1)) := by
    rw [Fintype.card_coe, Fintype.card_fin]
    exact Nat.lt_succ_of_le (List.toFinset_card_le U)
  obtain ⟨i, j, hij, heqs⟩ := Fintype.exists_ne_map_eq_of_card_lt
    (fun i : Fin (U.length + 1) =>
      (⟨f^[i.1] u0, List.mem_toFinset.2 (hseq i.1)⟩ : { x // x ∈ U.toFinset })) hcard
  have heq' : f^[i.1] u0 = f^[j.1] u0 := congrArg Subtype.val heqs
  rcases Nat.lt_or_ge i.1 j.1 with hlt | hge
  · refine ⟨f^[i.1] u0, ?_⟩
    have hc := hchain i.1 j.1 hlt
    rwa [← heq'] at hc
  · have hlt : j.1 < i.1 := by
      rcases Nat.lt_or_ge j.1 i.1 with h' | h'
      · exact h'
      · exact absurd (Fin.ext (Nat.le_antisymm h' hge)) hij
    refine ⟨f^[j.1] u0, ?_⟩
    have hc := hchain j.1 i.1 hlt
    rwa [heq'] at hc

theorem lookup_skel :
    ∀ {l1 l2 : List (Name × ComponentInfo)},
    l1.map (fun p => (p.1, p.2.strategy, p.2.dependencies)) =
      l2.map (fun p => (p.1, p.2.strategy, p.2.dependencies)) →
    ∀ n, Option.map (fun i : ComponentInfo => (i.strategy, i.dependencies))
        (lookupA n l1) =
      Option.map (fun i : ComponentInfo => (i.strategy, i.dependencies))
        (lookupA n l2) := by
  intro l1
  induction l1 with
  | nil =>
    intro l2 h n
    have h2 : l2 = [] := by
      cases l2 with
      | nil => rfl
      | cons q r2 => simp at h
    subst h2
    rfl
  | cons p r1 ih =>
    intro l2 h n
    cases l2 with
    | nil => simp at h
    | cons q r2 =>
      simp only [List.map_cons, List.cons.injEq] at h
      obtain ⟨hpq, hrest⟩ := h
      rw [Prod.mk.injEq] at hpq
      obtain ⟨hk, hv⟩ := hpq
      rw [show p = (p.1, p.2) from rfl, show q = (q.1, q.2) from rfl]
      simp only [lookupA]
      by_cases hn : n = p.1
      · rw [if_pos hn, if_pos (hk ▸ hn)]
        simpa using hv
      · rw [if_neg hn, if_neg fun hh => hn (hh.trans hk.symm)]
        exact ih hrest n

theorem keys_skel {l1 l2 : List (Name × ComponentInfo)}
    (h : l1.map (fun p => (p.1, p.2.strategy, p.2.dependencies)) =
         l2.map (fun p => (p.1, p.2.strategy, p.2.dependencies))) :
    l1.map Prod.fst = l2.map Prod.fst := by
  have h2 := congrArg
    (List.map (fun t : Name × ComponentStrategy × List (String × Name) => t.1)) h
  simpa [List.map_map, Function.comp] using h2

theorem countSingletonsIntended_skel {st : AppState} {comps₀ : List (Name × ComponentInfo)}
    (h : st.components.map (fun p => (p.1, p.2.strategy, p.2.dependencies)) =
         comps₀.map (fun p => (p.1, p.2.strategy, p.2.dependencies))) :
    countSingletonsIntended st = singletonCount comps₀ := by
  have key : ∀ l : List (Name × ComponentInfo),
      (l.filter fun p => p.2.strategy = ComponentStrategy.SINGLETON).length =
      ((l.map (fun p => (p.1, p.2.strategy, p.2.dependencies))).filter
        fun q => q.2.1 = ComponentStrategy.SINGLETON).length := by
    intro l
    induction l with
    | nil => rfl
    | cons p r ihl =>
      simp only [List.filter_cons, List.map_cons]
      by_cases hs : p.2.strategy = ComponentStrategy.SINGLETON
      · simp [hs, ihl]
      · simp [hs, ihl]
  unfold countSingletonsIntended singletonCount
  rw [key, h, ← key]

theorem depsOf_skel {l1 l2 : List (Name × ComponentInfo)}
    (h : l1.map (fun p => (p.1, p.2.strategy, p.2.dependencies)) =
         l2.map (fun p => (p.1, p.2.strategy, p.2.dependencies)))
    (n : Name) : depsOf l1 n = depsOf l2 n := by
  have hl := lookup_skel h n
  unfold depsOf
  cases h1 : lookupA n l1 with
  | none =>
    cases h2 : lookupA n l2 with
    | none => rfl
    | some i2 => rw [h1, h2] at hl; simp at hl
  | some i1 =>
    cases h2 : lookupA n l2 with
    | none => rw [h1, h2] at hl; simp at hl
    | some i2 =>
      rw [h1, h2] at hl
      simp at hl
      show List.map Prod.snd i1.dependencies = List.map Prod.snd i2.dependencies
      rw [hl.2]

theorem depEdge_skel {l1 l2 : List (Name × ComponentInfo)}
    (h : l1.map (fun p => (p.1, p.2.strategy, p.2.dependencies)) =
         l2.map (fun p => (p.1, p.2.strategy, p.2.dependencies)))
    (n d : Name) : depEdge l1 n d ↔ depEdge l2 n d := by
  have hl := lookup_skel h n
  unfold depEdge
  cases h1 : lookupA n l1 with
  | none =>
    cases h2 : lookupA n l2 with
    | none => simp
    | some i2 => rw [h1, h2] at hl; simp at hl
  | some i1 =>
    cases h2 : lookupA n l2 with
    | none => rw [h1, h2] at hl; simp at hl
    | some i2 =>
      rw [h1, h2] at hl
      simp at hl
      simp [hl.1, hl.2]

theorem isSingleton_skel {l1 l2 : List (Name × ComponentInfo)}
    (h : l1.map (fun p => (p.1, p.2.strategy, p.2.dependencies)) =
         l2.map (fun p => (p.1, p.2.strategy, p.2.dependencies)))
    (n : Name) : isSingletonName l1 n ↔ isSingletonName l2 n := by
  have hl := lookup_skel h n
  unfold isSingletonName
  cases h1 : lookupA n l1 with
  | none =>
    cases h2 : lookupA n l2 with
    | none => simp
    | some i2 => rw [h1, h2] at hl; simp at hl
  | some i1 =>
    cases h2 : lookupA n l2 with
    | none => rw [h1, h2] at hl; simp at hl
    | some i2 =>
      rw [h1, h2] at hl
      simp at hl
      simp [hl.1]

/-! ### Progress: an eligible component exists while unstarted singletons
remain -/

theorem lookupA_of_mem_nodup {β : Type} :
    ∀ {l : List (Name × β)}, (l.map Prod.fst).Nodup →
    ∀ {k : Name} {v : β}, (k, v) ∈ l → lookupA k l = some v := by
  intro l
  induction l with
  | nil => intro _ k v hm; cases hm
  | cons p rest ih =>
    intro hnd k v hm
    rw [show p = (p.1, p.2) from rfl] at hm ⊢
    simp only [List.map_cons, List.nodup_cons] at hnd
    rcases List.mem_cons.1 hm with hm | hm
    · rw [Prod.mk.injEq] at hm
      simp [lookupA, hm.1, hm.2]
    · have hk : k ≠ p.1 := by
        intro hk
        subst hk
        exact hnd.1 (List.mem_map.2 ⟨(p.1, v), hm, rfl⟩)
      simp only [lookupA, if_neg hk]
      exact ih hnd.2 hm

theorem length_le_of_nodup_subset {l1 l2 : List Name} (hnd : l1.Nodup)
    (hsub : ∀ n ∈ l1, n ∈ l2) : l1.length ≤ l2.length := by
  calc l1.length = l1.toFinset.card := (List.toFinset_card_of_nodup hnd).symm
    _ ≤ l2.toFinset.card :=
      Finset.card_le_card fun x hx => List.mem_toFinset.2 (hsub x (List.mem_toFinset.1 hx))
    _ ≤ l2.length := List.toFinset_card_le l2

/-- The singleton component names of a state. -/
theorem mem_singletonNames {st : AppState}
    (hnd : (st.components.map Prod.fst).Nodup) (n : Name) :
    n ∈ (st.components.filter fun p =>
        p.2.strategy = ComponentStrategy.SINGLETON).map Prod.fst ↔
    ∃ info, lookupA n st.components = some info ∧
      info.strategy = ComponentStrategy.SINGLETON := by
  constructor
  · intro h
    obtain ⟨p, hp, hp1⟩ := List.mem_map.1 h
    have hmem := List.mem_of_mem_filter hp
    have hstrat := List.of_mem_filter hp
    subst hp1
    refine ⟨p.2, ?_, by simpa using hstrat⟩
    exact lookupA_of_mem_nodup hnd (by rw [show (p.1, p.2) = p from rfl]; exact hmem)
  · rintro ⟨info, hlook, hstrat⟩
    refine List.mem_map.2 ⟨(n, info), ?_, rfl⟩
    refine List.mem_filter.2 ⟨lookupA_mem hlook, by simpa using hstrat⟩

theorem singletonNames_nodup {st : AppState}
    (hnd : (st.components.map Prod.fst).Nodup) :
    ((st.components.filter fun p =>
        p.2.strategy = ComponentStrategy.SINGLETON).map Prod.fst).Nodup :=
  hnd.sublist ((List.filter_sublist _).map _)

theorem singletonNames_length (st : AppState) :
    ((st.components.filter fun p =>
        p.2.strategy = ComponentStrategy.SINGLETON).map Prod.fst).length =
    countSingletonsIntended st := by
  simp [countSingletonsIntended]

theorem exists_eligible {comps₀ : List (Name × ComponentInfo)} {st : AppState}
    (hwf : WfComps comps₀) (hinv : Inv comps₀ st) (hacy : Acyclic comps₀)
    (hlen : st.started.length < countSingletonsIntended st) :
    ∃ n, eligible st n := by
  classical
  by_contra hno
  push_neg at hno
  have hnd : (st.components.map Prod.fst).Nodup := by
    rw [keys_skel hinv.skel]
    exact hwf.1
  set sNames := (st.components.filter fun p =>
      p.2.strategy = ComponentStrategy.SINGLETON).map Prod.fst with hsN
  set U := sNames.filter (fun n => decide (n ∉ st.started)) with hU
  -- U is nonempty
  have hUmem : ∀ n, n ∈ U ↔ (∃ info, lookupA n st.components = some info ∧
      info.strategy = ComponentStrategy.SINGLETON) ∧ n ∉ st.started := by
    intro n
    rw [hU, List.mem_filter]
    rw [hsN, mem_singletonNames hnd]
    simp
  have hUne : U ≠ [] := by
    intro hUnil
    -- then every singleton name is started, contradicting the length bound
    have hsub : ∀ n ∈ sNames, n ∈ st.started := by
      intro n hn
      by_contra hns
      have : n ∈ U := by
        rw [hU, List.mem_filter]
        exact ⟨hn, by simpa using hns⟩
      rw [hUnil] at this
      cases this
    have := length_le_of_nodup_subset (by rw [hsN]; exact singletonNames_nodup hnd) hsub
    rw [hsN, singletonNames_length] at this
    omega
  -- every member of U has a dependency inside U
  have hsucc : ∀ u ∈ U, ∃ d, depEdge st.components u d ∧ d ∈ U := by
    intro u hu
    obtain ⟨⟨info, hlook, hstrat⟩, hustart⟩ := (hUmem u).1 hu
    have hne := hno u
    unfold eligible at hne
    push_neg at hne
    obtain ⟨d, hd, hdstart⟩ := hne info hlook hstrat hustart
    refine ⟨d, ⟨info, hlook, hstrat, hd⟩, ?_⟩
    -- d is a registered singleton (well-formedness transferred along the
    -- skeleton) and unstarted, hence in U
    have hedge0 : depEdge comps₀ u d := (depEdge_skel hinv.skel u d).1 ⟨info, hlook, hstrat, hd⟩
    obtain ⟨info₀, hlook₀, hstrat₀, hd₀⟩ := hedge0
    obtain ⟨q, hq, hq1, hq2⟩ := hwf.2.2 (u, info₀) (lookupA_mem hlook₀) hstrat₀ d hd₀
    have hdlook₀ : lookupA d comps₀ = some q.2 := by
      rw [← hq1]
      exact lookupA_of_mem_nodup hwf.1 (by rw [show (q.1, q.2) = q from rfl]; exact hq)
    have hdsing : ∃ dinfo, lookupA d st.components = some dinfo ∧
        dinfo.strategy = ComponentStrategy.SINGLETON :=
      (isSingleton_skel hinv.skel d).2 ⟨q.2, hdlook₀, hq2⟩
    exact (hUmem d).2 ⟨hdsing, hdstart⟩
  obtain ⟨x, hx⟩ := cycle_of_all_have_succ U hUne hsucc
  refine hacy x ?_
  exact Relation.TransGen.mono (fun a b hab => (depEdge_skel hinv.skel a b).1 hab) hx

/-! ### Dependency-check and start-component lemmas -/

theorem checkDepsGoIntended_no_throw (st : AppState) (name : Name)
    (strat : ComponentStrategy) :
    ∀ l : List (String × Name),
    (∀ d ∈ l.map Prod.snd, ∃ di, lookupA d st.components = some di ∧
      di.strategy = strat) →
    checkDepsGoIntended st name strat l =
      .ok ((l.map Prod.snd).all fun d => decide (d ∈ st.started)) := by
  intro l
  induction l with
  | nil => intro _; rfl
  | cons p rest ih =>
    intro h
    obtain ⟨di, hd, hds⟩ := h p.2 (by simp)
    rw [show p = (p.1, p.2) from rfl]
    simp only [checkDepsGoIntended, hd]
    rw [if_neg (show ¬ di.strategy ≠ strat from fun hne => hne hds)]
    by_cases hmem : p.2 ∈ st.started
    · rw [if_pos hmem, ih fun d hdm => h d (by simp [hdm])]
      simp [hmem]
    · rw [if_neg hmem]
      simp [hmem]

theorem cycle_not_started {comps₀ : List (Name × ComponentInfo)} {st : AppState}
    (hinv : Inv comps₀ st) {x : Name}
    (hx : Relation.TransGen (depEdge comps₀) x x) : x ∉ st.started := by
  intro hxs
  have hstep : ∀ a b, depEdge comps₀ a b → ∀ i, st.started.get? i = some a →
      ∃ j, j < i ∧ st.started.get? j = some b := by
    intro a b hab i hia
    obtain ⟨info₀, hlook₀, _, hb⟩ := hab
    have hb' : b ∈ depsOf st.components a := by
      rw [depsOf_skel hinv.skel]
      unfold depsOf
      rw [hlook₀]
      exact hb
    exact hinv.started_order i a hia b hb'
  have htrans : ∀ a b, Relation.TransGen (depEdge comps₀) a b →
      ∀ i, st.started.get? i = some a → ∃ j, j < i ∧ st.started.get? j = some b := by
    intro a b hab
    induction hab with
    | single h => exact hstep _ _ h
    | tail _ h ih =>
      intro i hia
      obtain ⟨j, hj, hjb⟩ := ih i hia
      obtain ⟨k, hk, hkc⟩ := hstep _ _ h j hjb
      exact ⟨k, Nat.lt_trans hk hj, hkc⟩
  have key : ∀ i, st.started.get? i = some x → False := by
    intro i
    induction i using Nat.strong_induction_on with
    | _ i ih =>
      intro hix
      obtain ⟨j, hj, hjx⟩ := htrans x x hx i hix
      exact ih j hj hjx
  obtain ⟨m, hm⟩ := List.get_of_mem hxs
  exact key m.1 (by rw [List.get?_eq_get m.2]; exact congrArg some hm)

theorem startComponentIntended_ok {comps₀ : List (Name × ComponentInfo)} {st : AppState}
    {n : Name} {info : ComponentInfo} (hookOk : Name → Bool)
    (hinv : Inv comps₀ st)
    (hlook : lookupA n st.components = some info)
    (hstrat : info.strategy = ComponentStrategy.SINGLETON)
    (hnst : n ∉ st.started)
    (hdeps : ∀ d ∈ info.dependencies.map Prod.snd, d ∈ st.started)
    (hhook : hookOk n = true) :
    ∃ st', startComponentIntended hookOk st n = .ok st' ∧ Inv comps₀ st' ∧
      st'.started = st.started ++ [n] := by
  obtain ⟨hstate, hcfgT, hinstnone⟩ := hinv.unstarted_props n info hlook hstrat hnst
  obtain ⟨c, hc⟩ : ∃ c, info.config = some c := by
    cases hcfg : info.config with
    | none => rw [hcfg] at hcfgT; simp [configTruthy] at hcfgT
    | some c => exact ⟨c, rfl⟩
  set id := st.nextId with hid
  have hmk : mkInst info.config =
      { config := info.config, obj := none, started := false } := by
    unfold mkInst
    rw [if_pos hcfgT]
  set inst1 : CompInst := { config := info.config, obj := none, started := false }
    with hinst1
  set inst2 : CompInst := { config := info.config, obj := some id, started := true }
    with hinst2
  set info2 : ComponentInfo := { info with state := .STARTED, instRef := some id }
    with hinfo2
  set st1 : AppState :=
    { st with
      heap := updateN id inst1 st.heap,
      instances := updateA n id st.instances,
      nextId := id + 1 } with hst1
  set st' : AppState :=
    { st with
      components := updateA n info2 st.components,
      instances := updateA n id st.instances,
      heap := updateN id inst2 (updateN id inst1 st.heap),
      nextId := id + 1,
      started := st.started ++ [n],
      events := st.events ++ [.startH n] } with hst'
  have hget : getComponent st n none = .ok (id, st1) := by
    simp only [getComponent, hlook, if_pos hstrat, hinstnone, hmk, hst1, hid]
  have hlookinst : lookupN id st1.heap = some inst1 := by
    rw [hst1]
    exact lookupN_updateN_self _ _ _
  have hcstart : CompInst.start (hookOk n) id n inst1 = .ok (inst2, true) := by
    rw [hhook, hinst1, hinst2]
    simp [CompInst.start, hc]
  have hsetstate : info.setState .STARTED = .ok ({ info with state := .STARTED }) := by
    simp [ComponentInfo.setState, hstate, validTransitions]
  have htry : startComponentTryIntended hookOk st n info = .ok st' := by
    simp only [startComponentTryIntended, hget, hlookinst]
    rw [if_neg (show ¬ inst1.config = none from by rw [hinst1]; simp [hc])]
    simp only [hcstart, hsetstate]
    rfl
  have hrun : startComponentIntended hookOk st n = .ok st' := by
    simp only [startComponentIntended, hlook]
    rw [if_neg (show ¬ info.state ≠ ComponentState.CONFIGURED from fun h => h hstate)]
    simp only [htry]
  -- derived component/heap lookup facts for the new state
  have hcomp_self : lookupA n st'.components = some info2 := by
    rw [hst']
    exact lookupA_updateA_self _ _ _
  have hcomp_ne : ∀ m, m ≠ n → lookupA m st'.components = lookupA m st.components := by
    intro m hm
    rw [hst']
    exact lookupA_updateA_ne hm _ _
  have hheap_old : ∀ idm, idm < id → lookupN idm st'.heap = lookupN idm st.heap := by
    intro idm hlt
    rw [hst']
    show lookupN idm (updateN id inst2 (updateN id inst1 st.heap)) = lookupN idm st.heap
    rw [lookupN_updateN_ne (Nat.ne_of_lt hlt), lookupN_updateN_ne (Nat.ne_of_lt hlt)]
  have hskel' : st'.components.map (fun p => (p.1, p.2.strategy, p.2.dependencies)) =
      comps₀.map (fun p => (p.1, p.2.strategy, p.2.dependencies)) := by
    rw [hst']
    show (updateA n info2 st.components).map _ = _
    have hfe : (fun p : Name × ComponentInfo => (p.1, p.2.strategy, p.2.dependencies)) (n, info2) =
        (fun p : Name × ComponentInfo => (p.1, p.2.strategy, p.2.dependencies)) (n, info) := rfl
    rw [map_updateA _ hlook hfe]
    exact hinv.skel
  have hdepsOf' : ∀ k, depsOf st'.components k = depsOf st.components k := fun k =>
    (depsOf_skel hskel' k).trans (depsOf_skel hinv.skel k).symm
  refine ⟨st', hrun, ?_, by rw [hst']⟩
  constructor
  · exact hskel'
  · -- started_props
    intro m hm
    rw [hst'] at hm
    show ∃ minfo, lookupA m st'.components = some minfo ∧ _
    rcases List.mem_append.1 hm with hm | hm
    · have hmn : m ≠ n := fun h => hnst (h ▸ hm)
      obtain ⟨minfo, hml, hms, hmst, idm, hmr, hmh⟩ := hinv.started_props m hm
      obtain ⟨instm, hinstm⟩ := Option.isSome_iff_exists.1 hmh
      have hidm : idm < id := by
        rw [hid]
        exact hinv.heap_lt (idm, instm) (lookupN_mem hinstm)
      refine ⟨minfo, by rw [hcomp_ne m hmn]; exact hml, hms, hmst, idm, hmr, ?_⟩
      rw [hheap_old idm hidm, hinstm]
      rfl
    · have hmn : m = n := by simpa using hm
      subst hmn
      refine ⟨info2, hcomp_self, ?_, rfl, id, rfl, ?_⟩
      · rw [hinfo2]
        exact hstrat
      · rw [hst']
        show (lookupN id (updateN id inst2 (updateN id inst1 st.heap))).isSome = true
        rw [lookupN_updateN_self]
        rfl
  · -- started_nodup
    rw [hst']
    show (st.started ++ [n]).Nodup
    refine List.Nodup.append hinv.started_nodup (List.nodup_singleton n) ?_
    intro a ha hb
    rw [List.mem_singleton] at hb
    subst hb
    exact hnst ha
  · -- started_order
    intro i m him d hd
    rw [hdepsOf'] at hd
    rw [hst'] at him
    by_cases hi : i < st.started.length
    · have him' : st.started.get? i = some m := by
        rwa [List.get?_append hi] at him
      obtain ⟨j, hj, hjd⟩ := hinv.started_order i m him' d hd
      refine ⟨j, hj, ?_⟩
      rw [hst']
      show (st.started ++ [n]).get? j = some d
      rw [List.get?_append (Nat.lt_trans hj hi)]
      exact hjd
    · have hge : st.started.length ≤ i := Nat.le_of_not_lt hi
      rw [List.get?_append_right hge] at him
      have hi0 : i - st.started.length = 0 := by
        cases h0 : i - st.started.length with
        | zero => rfl
        | succ k => rw [h0] at him; cases him
      rw [hi0] at him
      have hmn : n = m := by simpa using him
      subst hmn
      have hieq : i = st.started.length := by omega
      have hd' : d ∈ info.dependencies.map Prod.snd := by
        unfold depsOf at hd
        rw [hlook] at hd
        exact hd
      have hdm : d ∈ st.started := hdeps d hd'
      obtain ⟨jf, hjf⟩ := List.get_of_mem hdm
      refine ⟨jf.1, by rw [hieq]; exact jf.2, ?_⟩
      rw [hst']
      show (st.started ++ [n]).get? jf.1 = some d
      rw [List.get?_append jf.2, List.get?_eq_get jf.2]
      exact congrArg some hjf
  · -- unstarted_props
    intro m minfo hml hms hmnst
    rw [hst'] at hmnst
    have hmn : m ≠ n := by
      intro h
      apply hmnst
      rw [h]
      exact List.mem_append.2 (Or.inr (List.mem_singleton.2 rfl))
    have hmnst' : m ∉ st.started := fun h => hmnst (List.mem_append.2 (Or.inl h))
    rw [hcomp_ne m hmn] at hml
    obtain ⟨h1, h2, h3⟩ := hinv.unstarted_props m minfo hml hms hmnst'
    refine ⟨h1, h2, ?_⟩
    rw [hst']
    show lookupA m (updateA n id st.instances) = none
    rw [lookupA_updateA_ne hmn]
    exact h3
  · -- events
    rw [hst']
    show st.events ++ [.startH n] = (st.started ++ [n]).map Event.startH
    rw [List.map_append, hinv.events_eq]
    rfl
  · -- heap_lt
    intro p hp
    rw [hst'] at hp
    replace hp : p ∈ updateN id inst2 (updateN id inst1 st.heap) := hp
    show p.1 < id + 1
    rcases mem_updateN hp with hp | hp
    · rcases mem_updateN hp with hp | hp
      · exact Nat.lt_succ_of_lt (hinv.heap_lt p hp)
      · rw [hp]
        exact Nat.lt_succ_self _
    · rw [hp]
      exact Nat.lt_succ_self _

theorem startComponentIntended_fail {comps₀ : List (Name × ComponentInfo)} {st : AppState}
    {n : Name} {info : ComponentInfo} (hookOk : Name → Bool)
    (hinv : Inv comps₀ st)
    (hlook : lookupA n st.components = some info)
    (hstrat : info.strategy = ComponentStrategy.SINGLETON)
    (hnst : n ∉ st.started)
    (hhook : hookOk n = false) :
    ∃ stE, startComponentIntended hookOk st n =
        .error (.startComponentFailed n (.hookFailed n), stE) ∧
      StopReady stE ∧ stE.started = st.started ∧ stE.events = st.events ∧
      lookupA n stE.components = some ({ info with state := .ERROR }) := by
  obtain ⟨hstate, hcfgT, hinstnone⟩ := hinv.unstarted_props n info hlook hstrat hnst
  obtain ⟨c, hc⟩ : ∃ c, info.config = some c := by
    cases hcfg : info.config with
    | none => rw [hcfg] at hcfgT; simp [configTruthy] at hcfgT
    | some c => exact ⟨c, rfl⟩
  set id := st.nextId with hid
  have hmk : mkInst info.config =
      { config := info.config, obj := none, started := false } := by
    unfold mkInst
    rw [if_pos hcfgT]
  set inst1 : CompInst := { config := info.config, obj := none, started := false }
    with hinst1
  set st1 : AppState :=
    { st with
      heap := updateN id inst1 st.heap,
      instances := updateA n id st.instances,
      nextId := id + 1 } with hst1
  set stE : AppState :=
    { st with
      components := updateA n ({ info with state := .ERROR }) st.components,
      heap := updateN id inst1 st.heap,
      instances := updateA n id st.instances,
      nextId := id + 1 } with hstE
  have hget : getComponent st n none = .ok (id, st1) := by
    simp only [getComponent, hlook, if_pos hstrat, hinstnone, hmk, hst1, hid]
  have hlookinst : lookupN id st1.heap = some inst1 := by
    rw [hst1]
    exact lookupN_updateN_self _ _ _
  have hcstart : CompInst.start (hookOk n) id n inst1 = .error (.hookFailed n) := by
    rw [hhook, hinst1]
    simp [CompInst.start, hc]
  have htry : startComponentTryIntended hookOk st n info = .error (.hookFailed n, st1) := by
    simp only [startComponentTryIntended, hget, hlookinst]
    rw [if_neg (show ¬ inst1.config = none from by rw [hinst1]; simp [hc])]
    simp only [hcstart]
  have hsetErr : setStateError st1 n = stE := by
    simp only [setStateError, updateInfo, hst1, hlook]
    rw [if_neg (show ¬ info.state = ComponentState.ERROR from by rw [hstate]; intro hh; cases hh)]
  have hrun : startComponentIntended hookOk st n =
      .error (.startComponentFailed n (.hookFailed n), stE) := by
    simp only [startComponentIntended, hlook]
    rw [if_neg (show ¬ info.state ≠ ComponentState.CONFIGURED from fun h => h hstate)]
    simp only [htry, hsetErr]
  refine ⟨stE, hrun, ?_, by rw [hstE], by rw [hstE], ?_⟩
  · constructor
    · rw [hstE]
      exact hinv.started_nodup
    · intro m hm
      rw [hstE] at hm
      have hmn : m ≠ n := fun h => hnst (h ▸ hm)
      obtain ⟨minfo, hml, hms, hmst, idm, hmr, hmh⟩ := hinv.started_props m hm
      obtain ⟨instm, hinstm⟩ := Option.isSome_iff_exists.1 hmh
      have hidm : idm < id := by
        rw [hid]
        exact hinv.heap_lt (idm, instm) (lookupN_mem hinstm)
      refine ⟨minfo, ?_, hmst, idm, hmr, ?_⟩
      · rw [hstE]
        show lookupA m (updateA n _ st.components) = some minfo
        rw [lookupA_updateA_ne hmn]
        exact hml
      · rw [hstE]
        show (lookupN idm (updateN id inst1 st.heap)).isSome = true
        rw [lookupN_updateN_ne (Nat.ne_of_lt hidm), hinstm]
        rfl
  · rw [hstE]
    exact lookupA_updateA_self _ _ _

theorem deps_registered {comps₀ : List (Name × ComponentInfo)} {st : AppState}
    (hwf : WfComps comps₀) (hinv : Inv comps₀ st)
    {n : Name} {info : ComponentInfo}
    (hlk : lookupA n st.components = some info)
    (hstr : info.strategy = ComponentStrategy.SINGLETON) :
    ∀ d ∈ info.dependencies.map Prod.snd, ∃ di, lookupA d st.components = some di ∧
      di.strategy = info.strategy := by
  intro d hd
  have hl := lookup_skel hinv.skel n
  cases h0 : lookupA n comps₀ with
  | none => rw [hlk, h0] at hl; simp at hl
  | some info₀ =>
    rw [hlk, h0] at hl
    simp at hl
    have hd0 : d ∈ info₀.dependencies.map Prod.snd := by rw [← hl.2]; exact hd
    obtain ⟨q, hq, hq1, hq2⟩ := hwf.2.2 (n, info₀) (lookupA_mem h0)
      (by rw [← hl.1]; exact hstr) d hd0
    have hdl : lookupA d comps₀ = some q.2 := by
      rw [← hq1]
      exact lookupA_of_mem_nodup hwf.1 (by rw [show (q.1, q.2) = q from rfl]; exact hq)
    obtain ⟨di, hdi, hdis⟩ := (isSingleton_skel hinv.skel d).2 ⟨q.2, hdl, hq2⟩
    exact ⟨di, hdi, by rw [hdis, hstr]⟩

theorem startPassGoIntended_spec {comps₀ : List (Name × ComponentInfo)} (hookOk : Name → Bool)
    (hwf : WfComps comps₀) :
    ∀ (names : List Name) (st : AppState) (ch : Bool), Inv comps₀ st →
    (∃ st' new, startPassGoIntended hookOk names st ch = .ok (st', ch || !new.isEmpty) ∧
       Inv comps₀ st' ∧ st'.started = st.started ++ new ∧
       (∀ m ∈ new, hookOk m = true) ∧
       (new = [] → st' = st ∧ ∀ n ∈ names, ¬ eligible st n))
    ∨ (∃ m stE, startPassGoIntended hookOk names st ch =
         .error (.startComponentFailed m (.hookFailed m), stE) ∧
       hookOk m = false ∧ isSingletonName comps₀ m ∧ StopReady stE ∧
       (∃ infoE, lookupA m stE.components = some infoE ∧
         infoE.state = ComponentState.ERROR) ∧
       m ∉ stE.started) := by
  intro names
  induction names with
  | nil =>
    intro st ch hinv
    left
    exact ⟨st, [], by simp [startPassGoIntended], hinv, by simp, by simp,
      fun _ => ⟨rfl, by simp⟩⟩
  | cons n rest ih =>
    intro st ch hinv
    cases hlk : lookupA n st.components with
    | none =>
      have hskip : startPassGoIntended hookOk (n :: rest) st ch =
          startPassGoIntended hookOk rest st ch := by
        simp only [startPassGoIntended, hlk]
      have hnelig : ¬ eligible st n := by
        rintro ⟨info', hl', _, _, _⟩
        rw [hlk] at hl'
        cases hl'
      rcases ih st ch hinv with ⟨st', new, hrun, hinv', hgrow, hhooks, hempty⟩ | herr
      · left
        refine ⟨st', new, hskip.trans hrun, hinv', hgrow, hhooks, fun hne => ?_⟩
        obtain ⟨hs, hnone⟩ := hempty hne
        refine ⟨hs, fun m hm => ?_⟩
        rcases List.mem_cons.1 hm with rfl | hm
        · exact hnelig
        · exact hnone m hm
      · right
        obtain ⟨m, stE, hrun, hrest⟩ := herr
        exact ⟨m, stE, hskip.trans hrun, hrest⟩
    | some info =>
      by_cases hstr : info.strategy = ComponentStrategy.SINGLETON
      · by_cases hstarted : info.state = ComponentState.STARTED
        · -- already started: skipped
          have hskip : startPassGoIntended hookOk (n :: rest) st ch =
              startPassGoIntended hookOk rest st ch := by
            simp only [startPassGoIntended, hlk]
            rw [if_neg (show ¬ info.strategy ≠ ComponentStrategy.SINGLETON from
              fun h => h hstr)]
            rw [if_pos hstarted]
          have hnelig : ¬ eligible st n := by
            rintro ⟨info', hl', hstr', hnmem, _⟩
            rw [hlk] at hl'
            have hinfo : info' = info := (Option.some.inj hl').symm
            subst hinfo
            obtain ⟨hcfg, _, _⟩ := hinv.unstarted_props n info' hlk hstr' hnmem
            rw [hcfg] at hstarted
            cases hstarted
          rcases ih st ch hinv with ⟨st', new, hrun, hinv', hgrow, hhooks, hempty⟩ | herr
          · left
            refine ⟨st', new, hskip.trans hrun, hinv', hgrow, hhooks, fun hne => ?_⟩
            obtain ⟨hs, hnone⟩ := hempty hne
            refine ⟨hs, fun m hm => ?_⟩
            rcases List.mem_cons.1 hm with rfl | hm
            · exact hnelig
            · exact hnone m hm
          · right
            obtain ⟨m, stE, hrun, hrest⟩ := herr
            exact ⟨m, stE, hskip.trans hrun, hrest⟩
        · -- not yet started
          have hnst : n ∉ st.started := by
            intro hmem
            obtain ⟨info', hl', _, hst', _⟩ := hinv.started_props n hmem
            rw [hlk] at hl'
            have hinfo : info' = info := (Option.some.inj hl').symm
            subst hinfo
            exact hstarted hst'
          have hdepreg := deps_registered hwf hinv hlk hstr
          have hcheck : checkDependencyIsReadyIntended st n info =
              .ok ((info.dependencies.map Prod.snd).all fun d =>
                decide (d ∈ st.started)) :=
            checkDepsGoIntended_no_throw st n info.strategy info.dependencies hdepreg
          cases hb : (info.dependencies.map Prod.snd).all fun d =>
              decide (d ∈ st.started) with
          | false =>
            have hskip : startPassGoIntended hookOk (n :: rest) st ch =
                startPassGoIntended hookOk rest st ch := by
              simp only [startPassGoIntended, hlk]
              rw [if_neg (show ¬ info.strategy ≠ ComponentStrategy.SINGLETON from
                fun h => h hstr)]
              rw [if_neg hstarted]
              rw [hcheck, hb]
            have hnelig : ¬ eligible st n := by
              rintro ⟨info', hl', _, _, hall⟩
              rw [hlk] at hl'
              have hinfo : info' = info := (Option.some.inj hl').symm
              rw [hinfo] at hall
              have hbt : (info.dependencies.map Prod.snd).all
                  (fun d => decide (d ∈ st.started)) = true :=
                List.all_eq_true.2 fun d hd => decide_eq_true (hall d hd)
              rw [hb] at hbt
              cases hbt
            rcases ih st ch hinv with ⟨st', new, hrun, hinv', hgrow, hhooks, hempty⟩ | herr
            · left
              refine ⟨st', new, hskip.trans hrun, hinv', hgrow, hhooks, fun hne => ?_⟩
              obtain ⟨hs, hnone⟩ := hempty hne
              refine ⟨hs, fun m hm => ?_⟩
              rcases List.mem_cons.1 hm with rfl | hm
              · exact hnelig
              · exact hnone m hm
            · right
              obtain ⟨m, stE, hrun, hrest⟩ := herr
              exact ⟨m, stE, hskip.trans hrun, hrest⟩
          | true =>
            have hready : ∀ d ∈ info.dependencies.map Prod.snd, d ∈ st.started := by
              intro d hd
              have := List.all_eq_true.1 hb d hd
              exact of_decide_eq_true this
            by_cases hhook : hookOk n = true
            · obtain ⟨st'', hrun'', hinv'', hgrow''⟩ :=
                startComponentIntended_ok hookOk hinv hlk hstr hnst hready hhook
              have hstep : startPassGoIntended hookOk (n :: rest) st ch =
                  startPassGoIntended hookOk rest st'' true := by
                simp only [startPassGoIntended, hlk]
                rw [if_neg (show ¬ info.strategy ≠ ComponentStrategy.SINGLETON from
                  fun h => h hstr)]
                rw [if_neg hstarted]
                rw [hcheck, hb]
                simp only [hrun'']
              rcases ih st'' true hinv'' with
                ⟨st', new, hrun, hinv', hgrow, hhooks, _⟩ | herr
              · left
                refine ⟨st', n :: new, hstep.trans (by
                    rw [hrun]
                    congr 1
                    rw [Prod.mk.injEq]
                    exact ⟨rfl, by simp⟩), hinv', ?_, ?_, fun hne => by cases hne⟩
                · rw [hgrow, hgrow'']
                  simp
                · intro m hm
                  rcases List.mem_cons.1 hm with rfl | hm
                  · exact hhook
                  · exact hhooks m hm
              · right
                obtain ⟨m, stE, hrun, hrest⟩ := herr
                exact ⟨m, stE, hstep.trans hrun, hrest⟩
            · have hhook' : hookOk n = false := by
                cases hhv : hookOk n with
                | true => exact absurd hhv hhook
                | false => rfl
              obtain ⟨stE, hrunE, hstopE, hstartedE, _, hlookE⟩ :=
                startComponentIntended_fail hookOk hinv hlk hstr hnst hhook'
              have hstep : startPassGoIntended hookOk (n :: rest) st ch =
                  .error (.startComponentFailed n (.hookFailed n), stE) := by
                simp only [startPassGoIntended, hlk]
                rw [if_neg (show ¬ info.strategy ≠ ComponentStrategy.SINGLETON from
                  fun h => h hstr)]
                rw [if_neg hstarted]
                rw [hcheck, hb]
                simp only [hrunE]
              right
              refine ⟨n, stE, hstep, hhook',
                (isSingleton_skel hinv.skel n).1 ⟨info, hlk, hstr⟩, hstopE,
                ⟨{ info with state := .ERROR }, hlookE, rfl⟩, ?_⟩
              rw [hstartedE]
              exact hnst
      · -- not a singleton: skipped
        have hskip : startPassGoIntended hookOk (n :: rest) st ch =
            startPassGoIntended hookOk rest st ch := by
          simp only [startPassGoIntended, hlk]
          rw [if_pos hstr]
        have hnelig : ¬ eligible st n := by
          rintro ⟨info', hl', hstr', _, _⟩
          rw [hlk] at hl'
          have hinfo : info' = info := (Option.some.inj hl').symm
          subst hinfo
          exact hstr hstr'
        rcases ih st ch hinv with ⟨st', new, hrun, hinv', hgrow, hhooks, hempty⟩ | herr
        · left
          refine ⟨st', new, hskip.trans hrun, hinv', hgrow, hhooks, fun hne => ?_⟩
          obtain ⟨hs, hnone⟩ := hempty hne
          refine ⟨hs, fun m hm => ?_⟩
          rcases List.mem_cons.1 hm with rfl | hm
          · exact hnelig
          · exact hnone m hm
        · right
          obtain ⟨m, stE, hrun, hrest⟩ := herr
          exact ⟨m, stE, hskip.trans hrun, hrest⟩

/-! ### Loop lemmas for `BaseApp._start` -/

theorem startLoopIntended_ok {comps₀ : List (Name × ComponentInfo)} (hookOk : Name → Bool)
    (hwf : WfComps comps₀) (hacy : Acyclic comps₀)
    (hhooks : ∀ n, isSingletonName comps₀ n → hookOk n = true) :
    ∀ (fuel : Nat) (st : AppState), Inv comps₀ st →
    singletonCount comps₀ - st.started.length < fuel →
    ∃ st', startLoopIntended hookOk (singletonCount comps₀) fuel st = .ok st' ∧
      Inv comps₀ st' ∧ ∀ n, n ∈ st'.started ↔ isSingletonName comps₀ n := by
  intro fuel
  induction fuel with
  | zero =>
    intro st _ hf
    omega
  | succ f ih =>
    intro st hinv hf
    have hnd : (st.components.map Prod.fst).Nodup := by
      rw [keys_skel hinv.skel]
      exact hwf.1
    have hcount : countSingletonsIntended st = singletonCount comps₀ :=
      countSingletonsIntended_skel hinv.skel
    have hsub : ∀ m ∈ st.started, m ∈ (st.components.filter fun p =>
        p.2.strategy = ComponentStrategy.SINGLETON).map Prod.fst := by
      intro m hm
      obtain ⟨mi, hml, hms, _⟩ := hinv.started_props m hm
      exact (mem_singletonNames hnd m).2 ⟨mi, hml, hms⟩
    by_cases hlen : st.started.length < singletonCount comps₀
    · rcases startPassGoIntended_spec hookOk hwf (st.components.map Prod.fst) st false hinv with
        ⟨st2, new, hrun, hinv2, hgrow, hhooksnew, hempty⟩ |
        ⟨m, stE, _, hmf, hms, _⟩
      · cases hnewe : new.isEmpty with
        | true =>
          exfalso
          have hnew : new = [] := List.isEmpty_iff.1 hnewe
          obtain ⟨_, hnone⟩ := hempty hnew
          obtain ⟨nel, hel⟩ := exists_eligible hwf hinv hacy (by rw [hcount]; exact hlen)
          have hmemk : nel ∈ st.components.map Prod.fst := by
            obtain ⟨infoe, hle, _, _, _⟩ := hel
            exact List.mem_map.2 ⟨(nel, infoe), lookupA_mem hle, rfl⟩
          exact hnone nel hmemk hel
        | false =>
          have hpass : startPassIntended hookOk st = .ok (st2, true) := by
            unfold startPassIntended
            rw [hrun, hnewe]
            rfl
          have hstep : startLoopIntended hookOk (singletonCount comps₀) (f + 1) st =
              startLoopIntended hookOk (singletonCount comps₀) f st2 := by
            simp only [startLoopIntended, if_pos hlen, hpass]
            rfl
          have hlen2 : singletonCount comps₀ - st2.started.length < f := by
            have hg : st2.started.length = st.started.length + new.length := by
              rw [hgrow]
              simp
            have hnewlen : 0 < new.length := by
              cases new with
              | nil => simp at hnewe
              | cons a r => simp
            omega
          obtain ⟨st', hrun', hinv', hiff⟩ := ih st2 hinv2 hlen2
          exact ⟨st', hstep.trans hrun', hinv', hiff⟩
      · exact absurd (hhooks m hms) (by rw [hmf]; simp)
    · have hstep : startLoopIntended hookOk (singletonCount comps₀) (f + 1) st = .ok st := by
        simp only [startLoopIntended, if_neg hlen]
      refine ⟨st, hstep, hinv, fun n => ⟨?_, ?_⟩⟩
      · intro hn
        obtain ⟨ni, hnl, hns, _⟩ := hinv.started_props n hn
        exact (isSingleton_skel hinv.skel n).1 ⟨ni, hnl, hns⟩
      · intro hsing
        by_contra hns
        obtain ⟨ni, hnl, hnstrat⟩ := (isSingleton_skel hinv.skel n).2 hsing
        have hmem : n ∈ (st.components.filter fun p =>
            p.2.strategy = ComponentStrategy.SINGLETON).map Prod.fst :=
          (mem_singletonNames hnd n).2 ⟨ni, hnl, hnstrat⟩
        have hsubcons : ∀ m ∈ n :: st.started, m ∈ (st.components.filter fun p =>
            p.2.strategy = ComponentStrategy.SINGLETON).map Prod.fst := by
          intro m hm
          rcases List.mem_cons.1 hm with rfl | hm
          · exact hmem
          · exact hsub m hm
        have hlennew := length_le_of_nodup_subset
          (List.nodup_cons.2 ⟨hns, hinv.started_nodup⟩) hsubcons
        rw [singletonNames_length, hcount] at hlennew
        simp at hlennew
        omega

theorem transGen_exists_step {α : Type} {r : α → α → Prop} {a b : α}
    (h : Relation.TransGen r a b) : ∃ c, r a c := by
  induction h with
  | single h => exact ⟨_, h⟩
  | tail _ _ ih => exact ih

theorem startLoopIntended_cycle {comps₀ : List (Name × ComponentInfo)} (hookOk : Name → Bool)
    (hwf : WfComps comps₀)
    (hhooks : ∀ n, isSingletonName comps₀ n → hookOk n = true)
    {x : Name} (hcyc : Relation.TransGen (depEdge comps₀) x x) :
    ∀ (fuel : Nat) (st : AppState), Inv comps₀ st →
    singletonCount comps₀ - st.started.length < fuel →
    ∃ st', startLoopIntended hookOk (singletonCount comps₀) fuel st =
        .error (.circularOrMissing, st') ∧ Inv comps₀ st' := by
  have hxs : isSingletonName comps₀ x := by
    obtain ⟨c, info, hl, hs, _⟩ := transGen_exists_step hcyc
    exact ⟨info, hl, hs⟩
  intro fuel
  induction fuel with
  | zero =>
    intro st hinv hf
    exfalso
    have hxnst : x ∉ st.started := cycle_not_started hinv hcyc
    have hnd : (st.components.map Prod.fst).Nodup := by
      rw [keys_skel hinv.skel]
      exact hwf.1
    obtain ⟨xi, hxl, hxstrat⟩ := (isSingleton_skel hinv.skel x).2 hxs
    have hxmem : x ∈ (st.components.filter fun p =>
        p.2.strategy = ComponentStrategy.SINGLETON).map Prod.fst :=
      (mem_singletonNames hnd x).2 ⟨xi, hxl, hxstrat⟩
    have hsub : ∀ m ∈ x :: st.started, m ∈ (st.components.filter fun p =>
        p.2.strategy = ComponentStrategy.SINGLETON).map Prod.fst := by
      intro m hm
      rcases List.mem_cons.1 hm with rfl | hm
      · exact hxmem
      · obtain ⟨mi, hml, hms, _⟩ := hinv.started_props m hm
        exact (mem_singletonNames hnd m).2 ⟨mi, hml, hms⟩
    have hle := length_le_of_nodup_subset
      (List.nodup_cons.2 ⟨hxnst, hinv.started_nodup⟩) hsub
    rw [singletonNames_length, countSingletonsIntended_skel hinv.skel] at hle
    simp at hle
    omega
  | succ f ih =>
    intro st hinv hf
    have hxnst : x ∉ st.started := cycle_not_started hinv hcyc
    have hnd : (st.components.map Prod.fst).Nodup := by
      rw [keys_skel hinv.skel]
      exact hwf.1
    obtain ⟨xi, hxl, hxstrat⟩ := (isSingleton_skel hinv.skel x).2 hxs
    have hxmem : x ∈ (st.components.filter fun p =>
        p.2.strategy = ComponentStrategy.SINGLETON).map Prod.fst :=
      (mem_singletonNames hnd x).2 ⟨xi, hxl, hxstrat⟩
    have hsub : ∀ m ∈ x :: st.started, m ∈ (st.components.filter fun p =>
        p.2.strategy = ComponentStrategy.SINGLETON).map Prod.fst := by
      intro m hm
      rcases List.mem_cons.1 hm with rfl | hm
      · exact hxmem
      · obtain ⟨mi, hml, hms, _⟩ := hinv.started_props m hm
        exact (mem_singletonNames hnd m).2 ⟨mi, hml, hms⟩
    have hlen : st.started.length < singletonCount comps₀ := by
      have hle := length_le_of_nodup_subset
        (List.nodup_cons.2 ⟨hxnst, hinv.started_nodup⟩) hsub
      rw [singletonNames_length, countSingletonsIntended_skel hinv.skel] at hle
      simp at hle
      omega
    rcases startPassGoIntended_spec hookOk hwf (st.components.map Prod.fst) st false hinv with
      ⟨st2, new, hrun, hinv2, hgrow, hhooksnew, hempty⟩ |
      ⟨m, stE, _, hmf, hms, _⟩
    · cases hnewe : new.isEmpty with
      | true =>
        have hnew : new = [] := List.isEmpty_iff.1 hnewe
        obtain ⟨hst2, _⟩ := hempty hnew
        have hpass : startPassIntended hookOk st = .ok (st2, false) := by
          unfold startPassIntended
          rw [hrun, hnew]
          rfl
        refine ⟨st2, ?_, by rw [hst2]; exact hinv⟩
        simp only [startLoopIntended, if_pos hlen, hpass]
        rfl
      | false =>
        have hnew : new ≠ [] := by
          intro h
          rw [h] at hnewe
          simp at hnewe
        have hpass : startPassIntended hookOk st = .ok (st2, true) := by
          unfold startPassIntended
          rw [hrun, hnewe]
          rfl
        have hstep : startLoopIntended hookOk (singletonCount comps₀) (f + 1) st =
            startLoopIntended hookOk (singletonCount comps₀) f st2 := by
          simp only [startLoopIntended, if_pos hlen, hpass]
          rfl
        have hlen2 : singletonCount comps₀ - st2.started.length < f := by
          have hg : st2.started.length = st.started.length + new.length := by
            rw [hgrow]
            simp
          have hnewlen : 0 < new.length := by
            cases new with
            | nil => exact absurd rfl hnew
            | cons a r => simp
          omega
        obtain ⟨st', hrun', hinv'⟩ := ih st2 hinv2 hlen2
        exact ⟨st', hstep.trans hrun', hinv'⟩
    · exact absurd (hhooks m hms) (by rw [hmf]; simp)

theorem startLoopIntended_hookfail {comps₀ : List (Name × ComponentInfo)}
    (hookOk : Name → Bool) (hwf : WfComps comps₀) (hacy : Acyclic comps₀)
    {mf : Name} (hmfs : isSingletonName comps₀ mf) (hmff : hookOk mf = false) :
    ∀ (fuel : Nat) (st : AppState), Inv comps₀ st →
    (∀ n ∈ st.started, hookOk n = true) →
    singletonCount comps₀ - st.started.length < fuel →
    ∃ m stE, startLoopIntended hookOk (singletonCount comps₀) fuel st =
        .error (.startComponentFailed m (.hookFailed m), stE) ∧
      hookOk m = false ∧ StopReady stE ∧
      (∃ infoE, lookupA m stE.components = some infoE ∧
        infoE.state = ComponentState.ERROR) ∧
      m ∉ stE.started := by
  intro fuel
  induction fuel with
  | zero =>
    intro st hinv hstartedok hf
    exfalso
    have hmfnst : mf ∉ st.started := by
      intro hm
      rw [hstartedok mf hm] at hmff
      cases hmff
    have hnd : (st.components.map Prod.fst).Nodup := by
      rw [keys_skel hinv.skel]
      exact hwf.1
    obtain ⟨mi, hml, hmstrat⟩ := (isSingleton_skel hinv.skel mf).2 hmfs
    have hmfmem : mf ∈ (st.components.filter fun p =>
        p.2.strategy = ComponentStrategy.SINGLETON).map Prod.fst :=
      (mem_singletonNames hnd mf).2 ⟨mi, hml, hmstrat⟩
    have hsub : ∀ m ∈ mf :: st.started, m ∈ (st.components.filter fun p =>
        p.2.strategy = ComponentStrategy.SINGLETON).map Prod.fst := by
      intro m hm
      rcases List.mem_cons.1 hm with rfl | hm
      · exact hmfmem
      · obtain ⟨qi, hql, hqs, _⟩ := hinv.started_props m hm
        exact (mem_singletonNames hnd m).2 ⟨qi, hql, hqs⟩
    have hle := length_le_of_nodup_subset
      (List.nodup_cons.2 ⟨hmfnst, hinv.started_nodup⟩) hsub
    rw [singletonNames_length, countSingletonsIntended_skel hinv.skel] at hle
    simp at hle
    omega
  | succ f ih =>
    intro st hinv hstartedok hf
    have hmfnst : mf ∉ st.started := by
      intro hm
      rw [hstartedok mf hm] at hmff
      cases hmff
    have hnd : (st.components.map Prod.fst).Nodup := by
      rw [keys_skel hinv.skel]
      exact hwf.1
    obtain ⟨mi, hml, hmstrat⟩ := (isSingleton_skel hinv.skel mf).2 hmfs
    have hmfmem : mf ∈ (st.components.filter fun p =>
        p.2.strategy = ComponentStrategy.SINGLETON).map Prod.fst :=
      (mem_singletonNames hnd mf).2 ⟨mi, hml, hmstrat⟩
    have hsub : ∀ m ∈ mf :: st.started, m ∈ (st.components.filter fun p =>
        p.2.strategy = ComponentStrategy.SINGLETON).map Prod.fst := by
      intro m hm
      rcases List.mem_cons.1 hm with rfl | hm
      · exact hmfmem
      · obtain ⟨qi, hql, hqs, _⟩ := hinv.started_props m hm
        exact (mem_singletonNames hnd m).2 ⟨qi, hql, hqs⟩
    have hlen : st.started.length < singletonCount comps₀ := by
      have hle := length_le_of_nodup_subset
        (List.nodup_cons.2 ⟨hmfnst, hinv.started_nodup⟩) hsub
      rw [singletonNames_length, countSingletonsIntended_skel hinv.skel] at hle
      simp at hle
      omega
    rcases startPassGoIntended_spec hookOk hwf (st.components.map Prod.fst) st false hinv with
      ⟨st2, new, hrun, hinv2, hgrow, hhooksnew, hempty⟩ |
      ⟨m, stE, hrunE, hmf2, _, hstopE, herrE, hmnstE⟩
    · cases hnewe : new.isEmpty with
      | true =>
        exfalso
        have hnew : new = [] := List.isEmpty_iff.1 hnewe
        obtain ⟨_, hnone⟩ := hempty hnew
        obtain ⟨nel, hel⟩ := exists_eligible hwf hinv hacy
          (by rw [countSingletonsIntended_skel hinv.skel]; exact hlen)
        have hmemk : nel ∈ st.components.map Prod.fst := by
          obtain ⟨infoe, hle2, _, _, _⟩ := hel
          exact List.mem_map.2 ⟨(nel, infoe), lookupA_mem hle2, rfl⟩
        exact hnone nel hmemk hel
      | false =>
        have hnew : new ≠ [] := by
          intro h
          rw [h] at hnewe
          simp at hnewe
        have hpass : startPassIntended hookOk st = .ok (st2, true) := by
          unfold startPassIntended
          rw [hrun, hnewe]
          rfl
        have hstep : startLoopIntended hookOk (singletonCount comps₀) (f + 1) st =
            startLoopIntended hookOk (singletonCount comps₀) f st2 := by
          simp only [startLoopIntended, if_pos hlen, hpass]
          rfl
        have hok2 : ∀ n ∈ st2.started, hookOk n = true := by
          intro n hn
          rw [hgrow] at hn
          rcases List.mem_append.1 hn with hn | hn
          · exact hstartedok n hn
          · exact hhooksnew n hn
        have hlen2 : singletonCount comps₀ - st2.started.length < f := by
          have hg : st2.started.length = st.started.length + new.length := by
            rw [hgrow]
            simp
          have hnewlen : 0 < new.length := by
            cases new with
            | nil => exact absurd rfl hnew
            | cons a r => simp
          omega
        obtain ⟨m, stE, hrun', hrest⟩ := ih st2 hinv2 hok2 hlen2
        exact ⟨m, stE, hstep.trans hrun', hrest⟩
    · refine ⟨m, stE, ?_, hmf2, hstopE, herrE, hmnstE⟩
      have hpassE : startPassIntended hookOk st =
          .error (.startComponentFailed m (.hookFailed m), stE) := by
        unfold startPassIntended
        exact hrunE
      simp only [startLoopIntended, if_pos hlen, hpassE]

/-! ### Claim C1 -/

theorem inv_freshApp {comps₀ : List (Name × ComponentInfo)} (hwf : WfComps comps₀) :
    Inv comps₀ (freshApp comps₀) := by
  constructor
  · rfl
  · intro n hn
    cases hn
  · exact List.nodup_nil
  · intro i n h
    simp [freshApp] at h
  · intro n info hl hs _
    obtain ⟨h1, h2⟩ := hwf.2.1 (n, info) (lookupA_mem hl) hs
    exact ⟨h1, h2, rfl⟩
  · rfl
  · intro p hp
    cases hp

theorem depEdge_mem_edgeList {comps : List (Name × ComponentInfo)} {n d : Name}
    (h : depEdge comps n d) : (n, d) ∈ edgeList comps := by
  obtain ⟨info, hl, hs, hd⟩ := h
  unfold edgeList
  refine List.mem_flatMap.2 ⟨(n, info), lookupA_mem hl, ?_⟩
  rw [if_pos hs]
  obtain ⟨q, hq, hq2⟩ := List.mem_map.1 hd
  exact List.mem_map.2 ⟨q, hq, by rw [hq2]⟩

theorem acyclic_of_rank (comps : List (Name × ComponentInfo)) (rank : Name → Nat)
    (h : ∀ p ∈ edgeList comps, rank p.2 < rank p.1) : Acyclic comps := by
  intro x hx
  have key : ∀ a b, Relation.TransGen (depEdge comps) a b → rank b < rank a := by
    intro a b hab
    induction hab with
    | single hs => exact h _ (depEdge_mem_edgeList hs)
    | tail _ hs ih => exact Nat.lt_trans (h _ (depEdge_mem_edgeList hs)) ih
  exact absurd (key x x hx) (Nat.lt_irrefl _)

/-- The intended orchestration algorithm has the property the
specification claims of `start()` (this supports the code_bug verdict on
claim C1): for an application whose singleton components form an acyclic
dependency graph, all registered and configured (with nonempty configs, and
start hooks that succeed), the intended `start()` starts every singleton
exactly once, and each component's start hook is invoked strictly after the
start hooks of all of its singleton dependencies have completed. -/
theorem start_respects_dependency_order_intended (comps : List (Name × ComponentInfo))
    (hookOk stopOk : Name → Bool) (hwf : WfComps comps) (hacy : Acyclic comps)
    (hhooks : ∀ n, isSingletonName comps n → hookOk n = true) :
    ∃ st', appStartIntended hookOk stopOk (freshApp comps) = .ok st' ∧
      (∀ n, n ∈ st'.started ↔ isSingletonName comps n) ∧
      (∀ n, isSingletonName comps n → st'.started.count n = 1) ∧
      st'.events = st'.started.map Event.startH ∧
      (∀ i n, st'.started.get? i = some n → ∀ d ∈ depsOf comps n,
        ∃ j, j < i ∧ st'.started.get? j = some d) := by
  obtain ⟨st', hrun, hinv', hiff⟩ := startLoopIntended_ok hookOk hwf hacy hhooks
    (singletonCount comps + 1) (freshApp comps) (inv_freshApp hwf)
    (Nat.lt_succ_of_le (Nat.sub_le _ _))
  have hauxeq : startAuxIntended hookOk (freshApp comps) =
      startLoopIntended hookOk (singletonCount comps) (singletonCount comps + 1)
        (freshApp comps) := rfl
  refine ⟨st', ?_, hiff, ?_, hinv'.events_eq, ?_⟩
  · simp only [appStartIntended, hauxeq, hrun]
  · intro n hn
    exact List.count_eq_one_of_mem hinv'.started_nodup ((hiff n).2 hn)
  · intro i n hget d hd
    refine hinv'.started_order i n hget d ?_
    rw [depsOf_skel hinv'.skel]
    exact hd

/-- The intended-model ordering theorem instantiated on `exAB` (`A` with no
dependencies, `B` depending on `A`). -/
theorem start_respects_dependency_order_intended_witness :
    ∃ st', appStartIntended allOk allOk (freshApp exAB) = .ok st' ∧
      (∀ n, n ∈ st'.started ↔ isSingletonName exAB n) ∧
      (∀ n, isSingletonName exAB n → st'.started.count n = 1) ∧
      st'.events = st'.started.map Event.startH ∧
      (∀ i n, st'.started.get? i = some n → ∀ d ∈ depsOf exAB n,
        ∃ j, j < i ∧ st'.started.get? j = some d) :=
  start_respects_dependency_order_intended exAB allOk allOk (by unfold WfComps; decide)
    (acyclic_of_rank exAB (fun n => if n = "B" then 1 else 0) (by decide))
    (fun _ _ => rfl)

/-! ### Failure handling of the intended orchestrator -/

theorem appStop_of_stopReady {st : AppState} (stopOk : Name → Bool)
    (hstop : ∀ n, stopOk n = true) (hsr : StopReady st) :
    ∃ st', appStop stopOk st = .ok st' ∧ st'.started = [] ∧
      (∀ m, m ∉ st.started → lookupA m st'.components = lookupA m st.components) ∧
      (∀ n ∈ st.started, ∃ info', lookupA n st'.components = some info' ∧
        info'.state = .STOPPED ∧ info'.instRef = none) := by
  obtain ⟨st1, hrun, hev, hstarted, hinstc, hcur, hframe, hdone⟩ :=
    stopGo_spec stopOk st.started.reverse st (List.nodup_reverse.2 hsr.started_nodup)
      (fun n _ => hstop n)
      (fun n hn => hsr.started_props n (List.mem_reverse.1 hn))
  refine ⟨{ st1 with started := [] }, ?_, rfl, ?_, ?_⟩
  · simp only [appStop, hrun]
  · intro m hm
    exact hframe m fun hmr => hm (List.mem_reverse.1 hmr)
  · intro n hn
    exact hdone n (List.mem_reverse.2 hn)

/-- Even the intended `start()` does not name cycle participants: on the
cycle `compC ↔ compD` (plus the startable singleton `A`) it fails with the
fixed generic message `'Circular dependency or dependency does not exist'`
wrapped by the app-level wrapper — an error that names neither `compC` nor
`compD`.  (`DIContainer.get_dependency_order`, which would name one node,
is never called by `start()`.) -/
theorem start_cycle_generic_message_intended :
    (match appStartIntended allOk allOk (freshApp exCycle) with
     | .error (e, _) => some e
     | .ok _ => none) = some (.startAppFailed .circularOrMissing) ∧
    ("compC" : Name) ∉ Err.names (.startAppFailed .circularOrMissing) ∧
    ("compD" : Name) ∉ Err.names (.startAppFailed .circularOrMissing) := by
  refine ⟨by rfl, by decide, by decide⟩

/-- For a well-formed application with a dependency cycle among its
singletons, the intended `start()` fails with the generic
circular-dependency-or-missing-dependency error — which names no cycle
participant — and no component is left half-started: the components started
before the failure are rolled back by the automatic `stop()`, the started
list is cleared, and afterwards no singleton is in state `STARTED`. -/
theorem start_cycle_fails_generic_and_rolls_back_intended
    (comps : List (Name × ComponentInfo)) (hookOk stopOk : Name → Bool)
    (hwf : WfComps comps)
    (hhooks : ∀ n, isSingletonName comps n → hookOk n = true)
    (hstop : ∀ n, stopOk n = true)
    (hcyc : ∃ x, Relation.TransGen (depEdge comps) x x) :
    ∃ st', appStartIntended hookOk stopOk (freshApp comps) =
        .error (.startAppFailed .circularOrMissing, st') ∧
      Err.names (.startAppFailed .circularOrMissing) = [] ∧
      st'.started = [] ∧
      (∀ n info, lookupA n st'.components = some info →
        info.strategy = ComponentStrategy.SINGLETON →
        info.state ≠ ComponentState.STARTED) := by
  obtain ⟨x, hx⟩ := hcyc
  obtain ⟨stP, hrunP, hinvP⟩ := startLoopIntended_cycle hookOk hwf hhooks hx
    (singletonCount comps + 1) (freshApp comps) (inv_freshApp hwf)
    (Nat.lt_succ_of_le (Nat.sub_le _ _))
  have hsr : StopReady stP := by
    refine ⟨hinvP.started_nodup, fun n hn => ?_⟩
    obtain ⟨info, hl, _, hs, id, hr, hh⟩ := hinvP.started_props n hn
    exact ⟨info, hl, hs, id, hr, hh⟩
  obtain ⟨st', hstoprun, hstarted', hframe, hstopped⟩ :=
    appStop_of_stopReady stopOk hstop hsr
  refine ⟨st', ?_, rfl, hstarted', ?_⟩
  · have hauxeq : startAuxIntended hookOk (freshApp comps) =
        startLoopIntended hookOk (singletonCount comps) (singletonCount comps + 1)
          (freshApp comps) := rfl
    simp only [appStartIntended, hauxeq, hrunP, hstoprun]
  · intro n info hl hs
    by_cases hn : n ∈ stP.started
    · obtain ⟨info', hl', hst', _⟩ := hstopped n hn
      have heq : info = info' := by
        rw [hl] at hl'
        exact Option.some.inj hl'
      rw [heq, hst']
      intro hcontra
      cases hcontra
    · rw [hframe n hn] at hl
      obtain ⟨hcf, _, _⟩ := hinvP.unstarted_props n info hl hs hn
      rw [hcf]
      intro hcontra
      cases hcontra

/-- The intended-model cycle theorem instantiated at the concrete cycle
`exCycle`. -/
theorem start_cycle_fails_generic_intended_witness :
    ∃ st', appStartIntended allOk allOk (freshApp exCycle) =
        .error (.startAppFailed .circularOrMissing, st') ∧
      Err.names (.startAppFailed .circularOrMissing) = [] ∧
      st'.started = [] ∧
      (∀ n info, lookupA n st'.components = some info →
        info.strategy = ComponentStrategy.SINGLETON →
        info.state ≠ ComponentState.STARTED) :=
  start_cycle_fails_generic_and_rolls_back_intended exCycle allOk allOk
    (by unfold WfComps; decide) (fun _ _ => rfl) (fun _ => rfl)
    (by
      have e1 : depEdge exCycle "compC" "compD" :=
        ⟨{ strategy := .SINGLETON, dependencies := [("d", "compD")],
           config := some cfg1, instRef := none, state := .CONFIGURED },
         by rfl, rfl, by decide⟩
      have e2 : depEdge exCycle "compD" "compC" :=
        ⟨{ strategy := .SINGLETON, dependencies := [("c", "compC")],
           config := some cfg1, instRef := none, state := .CONFIGURED },
         by rfl, rfl, by decide⟩
      exact ⟨"compC", Relation.TransGen.head e1 (Relation.TransGen.single e2)⟩)

/-- Even the intended `start()` does not collect unwind errors: with `B`'s
start hook failing and `A`'s stop hook failing during the rollback, the
surfaced exception is the unwind's `stopHookFailed "A"` — not the original
failure wrapped with `B`'s name (`BaseApp.stop`, lines 120-131, has no
exception handling). -/
theorem start_unwind_error_intended :
    (match appStartIntended hookFailB stopFailA (freshApp exAB) with
     | .error (e, _) => some e
     | .ok _ => none) = some (.stopHookFailed "A") := by
  rfl

/-- Failure handling of the intended `start()`: when an individual
component's start hook fails on a well-formed acyclic application, that
component is marked `ERROR`, the sequence aborts, `stop()` unwinds every
component started so far, and — provided the stop hooks succeed during the
unwind — the original failure is surfaced wrapped with the failing
component's name inside the app-level wrapper.  (If the unwind itself
raises, that exception propagates instead of the original: unwind errors
are not collected.) -/
theorem start_failure_rolls_back_intended (comps : List (Name × ComponentInfo))
    (hookOk stopOk : Name → Bool)
    (hwf : WfComps comps) (hacy : Acyclic comps)
    (hstop : ∀ n, stopOk n = true)
    (hfail : ∃ m, isSingletonName comps m ∧ hookOk m = false) :
    ∃ m st', hookOk m = false ∧
      appStartIntended hookOk stopOk (freshApp comps) =
        .error (.startAppFailed (.startComponentFailed m (.hookFailed m)), st') ∧
      (∃ info, lookupA m st'.components = some info ∧
        info.state = ComponentState.ERROR) ∧
      st'.started = [] := by
  obtain ⟨mf, hmfs, hmff⟩ := hfail
  obtain ⟨m, stE, hrunE, hmf2, hstopE, ⟨infoE, hlE, hsE⟩, hmnstE⟩ :=
    startLoopIntended_hookfail hookOk hwf hacy hmfs hmff
      (singletonCount comps + 1) (freshApp comps) (inv_freshApp hwf)
      (fun n hn => by cases hn)
      (Nat.lt_succ_of_le (Nat.sub_le _ _))
  obtain ⟨st', hstoprun, hstarted', hframe, _⟩ :=
    appStop_of_stopReady stopOk hstop hstopE
  refine ⟨m, st', hmf2, ?_, ?_, hstarted'⟩
  · have hauxeq : startAuxIntended hookOk (freshApp comps) =
        startLoopIntended hookOk (singletonCount comps) (singletonCount comps + 1)
          (freshApp comps) := rfl
    simp only [appStartIntended, hauxeq, hrunE, hstoprun]
  · refine ⟨infoE, ?_, hsE⟩
    rw [hframe m hmnstE]
    exact hlE

/-- The intended-model failure theorem instantiated at `exAB` where `B`'s
start hook fails and all stop hooks succeed. -/
theorem start_failure_rolls_back_intended_witness :
    ∃ m st', hookFailB m = false ∧
      appStartIntended hookFailB allOk (freshApp exAB) =
        .error (.startAppFailed (.startComponentFailed m (.hookFailed m)), st') ∧
      (∃ info, lookupA m st'.components = some info ∧
        info.state = ComponentState.ERROR) ∧
      st'.started = [] :=
  start_failure_rolls_back_intended exAB hookFailB allOk (by unfold WfComps; decide)
    (acyclic_of_rank exAB (fun n => if n = "B" then 1 else 0) (by decide))
    (fun _ => rfl)
    ⟨"B", ⟨{ strategy := .SINGLETON, dependencies := [("a", "A")],
             config := some cfg1, instRef := none, state := .CONFIGURED },
           by rfl, rfl⟩, by decide⟩

/-! ### Claims C1, C2 and C3 against the code as written -/

/-- C1 (code_bug): the claim states the intended orchestration — proved of
the intent model as `start_respects_dependency_order_intended` — but the
code as written can never start anything.  `start()` on a freshly
constructed app, whatever the registered components and however the start
and stop hooks would behave, always fails with the `AttributeError` for
the nonexistent `DIContainer.components` attribute raised at `_start`'s
first line (`base_app.py` line 93), wrapped as "Failed to start app: ..."
after a vacuous rollback `stop()`; the error names no component and the
app state comes back unchanged with the started list still empty, so no
singleton is ever started. -/
theorem start_always_fails_attribute_error
    (comps : List (Name × ComponentInfo)) (hookOk stopOk : Name → Bool) :
    appStart hookOk stopOk (freshApp comps) =
      .error (.startAppFailed (.attributeError "components"), freshApp comps) ∧
    Err.names (.startAppFailed (.attributeError "components")) = [] ∧
    (freshApp comps).started = [] :=
  ⟨rfl, rfl, rfl⟩

/-- C2 counterexample: on the registered cycle `compC ↔ compD` (plus the
startable singleton `A`), `start()` does not fail with a circular-dependency
error naming the participants: it fails with the wrapped `AttributeError`
for the nonexistent `DIContainer.components` attribute — raised before any
dependency is examined — whose message names neither `compC` nor `compD`. -/
theorem start_cycle_attribute_error_counterexample :
    (match appStart allOk allOk (freshApp exCycle) with
     | .error (e, _) => some e
     | .ok _ => none) = some (.startAppFailed (.attributeError "components")) ∧
    ("compC" : Name) ∉ Err.names (.startAppFailed (.attributeError "components")) ∧
    ("compD" : Name) ∉ Err.names (.startAppFailed (.attributeError "components")) := by
  refine ⟨by rfl, by decide, by decide⟩

/-- C2 amended: `start()` on a well-formed application whose singletons
form a dependency cycle does fail, and no component is left half-started —
but only because nothing starts at all.  The failure is the
`AttributeError` for the nonexistent `DIContainer.components` attribute
(`base_app.py` line 93), wrapped as "Failed to start app: ...", raised
before any cycle detection could run; it names no cycle participant, the
started list stays empty, and every singleton remains in its configured,
non-`STARTED` state.  (Even the intended loop's fallback error, the fixed
message 'Circular dependency or dependency does not exist', names no
participant: see `start_cycle_generic_message_intended`.) -/
theorem start_cycle_fails_before_detection
    (comps : List (Name × ComponentInfo)) (hookOk stopOk : Name → Bool)
    (hwf : WfComps comps)
    (_hcyc : ∃ x, Relation.TransGen (depEdge comps) x x) :
    ∃ st', appStart hookOk stopOk (freshApp comps) =
        .error (.startAppFailed (.attributeError "components"), st') ∧
      Err.names (.startAppFailed (.attributeError "components")) = [] ∧
      st'.started = [] ∧
      (∀ n info, lookupA n st'.components = some info →
        info.strategy = ComponentStrategy.SINGLETON →
        info.state ≠ ComponentState.STARTED) := by
  refine ⟨freshApp comps, rfl, rfl, rfl, ?_⟩
  intro n info hl hs
  obtain ⟨hst, _⟩ := hwf.2.1 (n, info) (lookupA_mem hl) hs
  rw [hst]
  intro hcontra
  cases hcontra

/-- Witness for C2's amended claim at the concrete cycle `exCycle`. -/
theorem start_cycle_fails_before_detection_witness :
    ∃ st', appStart allOk allOk (freshApp exCycle) =
        .error (.startAppFailed (.attributeError "components"), st') ∧
      Err.names (.startAppFailed (.attributeError "components")) = [] ∧
      st'.started = [] ∧
      (∀ n info, lookupA n st'.components = some info →
        info.strategy = ComponentStrategy.SINGLETON →
        info.state ≠ ComponentState.STARTED) :=
  start_cycle_fails_before_detection exCycle allOk allOk
    (by unfold WfComps; decide)
    (by
      have e1 : depEdge exCycle "compC" "compD" :=
        ⟨{ strategy := .SINGLETON, dependencies := [("d", "compD")],
           config := some cfg1, instRef := none, state := .CONFIGURED },
         by rfl, rfl, by decide⟩
      have e2 : depEdge exCycle "compD" "compC" :=
        ⟨{ strategy := .SINGLETON, dependencies := [("c", "compC")],
           config := some cfg1, instRef := none, state := .CONFIGURED },
         by rfl, rfl, by decide⟩
      exact ⟨"compC", Relation.TransGen.head e1 (Relation.TransGen.single e2)⟩)

/-- C3 counterexample: on `exAB` with component `B`'s start hook set to
fail (and `A`'s stop hook set to fail during any unwind), `start()` never
reaches either hook.  It surfaces the wrapped `AttributeError` from
`_start`'s first line — an error naming no component, so in particular not
wrapped with `B`'s name — while `B` is left in state `CONFIGURED` rather
than marked `ERROR`, and the run records no hook invocation and no stop
call at all. -/
theorem start_hook_never_invoked_counterexample :
    (match appStart hookFailB stopFailA (freshApp exAB) with
     | .error (e, st) =>
        some (e, (lookupA "B" st.components).map ComponentInfo.state, st.events)
     | .ok _ => none) =
      some (.startAppFailed (.attributeError "components"),
            some ComponentState.CONFIGURED, []) := by
  rfl

/-- C3 amended: no run of `start()` can experience an individual
start-hook failure, because no start hook is ever invoked: `start()`
raises `AttributeError` at `_start`'s first line (`base_app.py` line 93)
before any component is examined, so its outcome — the wrapped
`AttributeError`, the state unchanged with no component marked `ERROR` and
an empty event trace — is identical for every start- and stop-hook
behaviour.  (Were the attribute reads repaired, `start_component` would
still fail at the undefined `inst.set_app` before the hook; and in the
code as written errors during `stop()`'s unwind are in any case raised,
not collected: see `start_unwind_error_intended`.) -/
theorem start_hook_failure_unreachable
    (comps : List (Name × ComponentInfo)) (hookOk hookOk' stopOk stopOk' : Name → Bool) :
    appStart hookOk stopOk (freshApp comps) =
      .error (.startAppFailed (.attributeError "components"), freshApp comps) ∧
    appStart hookOk stopOk (freshApp comps) = appStart hookOk' stopOk' (freshApp comps) ∧
    (freshApp comps).events = [] :=
  ⟨rfl, rfl, rfl⟩

end AdcAppkit
